import Mathlib

/-!
# Token lifecycle and access control of the OAuth2 gateway bot (`index.js`)

A shallow embedding of the parts of `index.js` that carry state: the user file
`./object.json`, the whitelist kept in `quick.db`, the OAuth2 callback handler
`app.post('/')`, the token probe `checkTokenValidity` and the slash-command
handler `client.on("interactionCreate")`.

Everything the program obtains from outside (answers of the identity provider,
outcomes of file writes, the guild) is an explicit input of the embedded
function; everything it does to the outside (the file, the key-value store,
replies, probes, join calls, webhook posts) is an explicit output.
-/

namespace AuthBot

/-! ## Data model -/

/-- One element of the JSON array in `./object.json`: the object literal `papapa`
of `index.js` (lines 251-260). -/
structure UserRecord where
  userID : String
  userIP : String
  avatarURL : String
  username : String
  email : Option String
  access_token : String
  refresh_token : Option String
deriving DecidableEq, Repr

/-- What is on disk at `./object.json`.
`missing`: the file does not exist; `unreadable`: it exists and reading it raises;
`malformed`: it is read and `JSON.parse` raises on its text; `users l`: its text is
the JSON array of the records `l`. -/
inductive StoreFile where
  | missing
  | unreadable
  | malformed
  | users (l : List UserRecord)
deriving DecidableEq, Repr

/-- JavaScript truthiness of a value that is a string, `null` or `undefined`:
only a non-empty string is truthy. -/
def truthy : Option String → Bool
  | some s => s != ""
  | none => false

/-! ## The user file helpers (lines 77-104) -/

/-- Embedding of `getAllUsers` (lines 77-89): the returned array and the file afterwards.
`createOk` is the outcome of the `writeFileSync('./object.json', '[]')` made when the
file does not exist; every raise inside the `try` ends in `return []`. -/
def getAllUsers (file : StoreFile) (createOk : Bool) : List UserRecord × StoreFile :=
  match file with
  | .missing => if createOk then ([], .users []) else ([], .missing)
  | .unreadable => ([], .unreadable)
  | .malformed => ([], .malformed)
  | .users l => (l, .users l)

/-- Embedding of `writeAllUsers` (lines 96-104): the returned boolean and the file
afterwards. `writeOk` is the outcome of `fs.writeFileSync`; a write that raises is taken
to leave the file as it was. -/
def writeAllUsers (file : StoreFile) (users : List UserRecord) (writeOk : Bool) :
    Bool × StoreFile :=
  if writeOk then (true, .users users) else (false, file)

/-! ## Token probe (lines 111-129) -/

/-- Outcome of `axios.get('https://discord.com/api/v10/users/@me', ...)`.
`resolved status`: the promise is fulfilled with a response of that status;
`rejected status`: the promise is rejected, `status` being `error.response.status`
when the error carries a response and `none` when it does not (network error). -/
inductive ProbeOutcome where
  | resolved (status : Nat)
  | rejected (status : Option Nat)
deriving DecidableEq, Repr

/-- Embedding of `checkTokenValidity` (lines 111-129), as a function of the outcome of
its request. -/
def checkTokenValidity : ProbeOutcome → Bool
  | .resolved status => status == 200
  | .rejected (some status) => if status == 401 then false else true
  | .rejected none => true

/-! ## The OAuth2 callback `app.post('/')` (lines 166-284) -/

/-- Body `tokenData` of the token endpoint's answer: the three fields the handler reads. -/
structure TokenData where
  access_token : Option String
  refresh_token : Option String
  token_type : Option String
deriving DecidableEq, Repr

/-- Outcome of the code exchange, `fetch(...).then(r => r.json())` (lines 177-178).
`raised`: the request or the JSON decoding rejects, or the body is `null` so that
reading `tokenData.access_token` raises; `answered d`: the body is the object `d`. -/
inductive ExchangeOutcome where
  | raised
  | answered (d : TokenData)
deriving DecidableEq, Repr

/-- Body `userData` of the profile answer, when it is an object. `discriminator` and
`avatar` are kept as the text their string concatenation produces. -/
structure Profile where
  id : String
  username : Option String
  discriminator : String
  avatar : String
  email : Option String
deriving DecidableEq, Repr

/-- Outcome of the profile request `axios.get('https://discordapp.com/api/users/@me')`
(line 190). `rejected`: the promise is rejected; `nullBody`: fulfilled with
`data === null`, on which `userData.id` raises; `emptyBody`: fulfilled with a falsy
non-null body (the empty string); `body p`: fulfilled with the object `p`. -/
inductive ProfileOutcome where
  | rejected
  | nullBody
  | emptyBody
  | body (p : Profile)
deriving DecidableEq, Repr

/-- One `POST /` request together with what the outside world answers while it is
served. `code` is `req.body`; `writeOk` is the outcome of the `fs.writeFile` of
lines 262-270, consulted only when the handler writes. -/
structure IntakeRequest where
  code : String
  xForwardedFor : Option String
  remoteAddress : String
  exchange : ExchangeOutcome
  profile : ProfileOutcome
  writeOk : Bool
deriving DecidableEq, Repr

/-- The webhook post of lines 223-248: the fields of its embed. -/
structure Notification where
  tag : String
  userId : String
  email : String
  ip : String
  accessToken : String
  refreshToken : Option String
deriving DecidableEq, Repr

/-- What serving one `POST /` leaves behind: the HTTP status sent, the user file, and
the webhook posts made. -/
structure IntakeResult where
  status : Nat
  file : StoreFile
  notifications : List Notification
deriving DecidableEq, Repr

/-- Line 167: `req.headers['x-forwarded-for'] || req.socket.remoteAddress`. -/
def sourceIp (r : IntakeRequest) : String :=
  match r.xForwardedFor with
  | some h => if h != "" then h else r.remoteAddress
  | none => r.remoteAddress

/-- Lines 211-216. -/
def avatarHASH (userData : Profile) : String :=
  "https://cdn.discordapp.com/avatars/" ++ userData.id ++ "/" ++ userData.avatar ++
    ".png?size=4096"

/-- The record `papapa` of lines 251-260. -/
def papapa (ip : String) (userData : Profile) (name : String) (ac_token : String)
    (rf_token : Option String) : UserRecord :=
  { userID := userData.id
    userIP := ip
    avatarURL := avatarHASH userData
    username := name ++ "#" ++ userData.discriminator
    email := userData.email
    access_token := ac_token
    refresh_token := rf_token }

/-- The callback handed to `fs.readFile('./object.json', ...)` (lines 202-272): the file
afterwards and the webhook posts made. The callback ignores its error argument and
starts with `JSON.parse(req)`, which raises unless the file was read and holds a JSON
array; the raise ends the callback. -/
def readFileCallback (file : StoreFile) (ip : String) (userData : Profile) (name : String)
    (ac_token : String) (rf_token : Option String) (writeOk : Bool) :
    StoreFile × List Notification :=
  match file with
  | .users usersData =>
    let isAlreadyStored := usersData.any (fun ususu => ususu.userID == userData.id)
    if !isAlreadyStored then
      let note : Notification :=
        { tag := name ++ "#" ++ userData.discriminator
          userId := userData.id
          email := if truthy userData.email then userData.email.getD "N/A" else "N/A"
          ip := ip
          accessToken := ac_token
          refreshToken := rf_token }
      let written := usersData ++ [papapa ip userData name ac_token rf_token]
      (if writeOk then .users written else file, [note])
    else (file, [])
  | _ => (file, [])

/-- Embedding of the handler `app.post('/')` (lines 166-284). -/
def intake (file : StoreFile) (r : IntakeRequest) : IntakeResult :=
  let ip := sourceIp r
  match r.exchange with
  | .raised => { status := 400, file := file, notifications := [] }
  | .answered tokenData =>
    match tokenData.access_token with
    | none => { status := 400, file := file, notifications := [] }
    | some ac_token =>
      if ac_token == "" then { status := 400, file := file, notifications := [] }
      else
        match r.profile with
        | .rejected => { status := 500, file := file, notifications := [] }
        | .nullBody => { status := 500, file := file, notifications := [] }
        | .emptyBody => { status := 400, file := file, notifications := [] }
        | .body userData =>
          match userData.username with
          | none => { status := 400, file := file, notifications := [] }
          | some name =>
            if name == "" then { status := 400, file := file, notifications := [] }
            else
              let out := readFileCallback file ip userData name ac_token
                tokenData.refresh_token r.writeOk
              { status := 200, file := out.1, notifications := out.2 }

/-- Serving a sequence of `POST /` requests one after the other, each to its end. -/
def intakeAll (file : StoreFile) : List IntakeRequest → StoreFile
  | [] => file
  | r :: rs => intakeAll (intake file r).file rs

/-- The profile a request resolves to: the exchange yields a truthy access token and
the profile answer is an object with a truthy username. -/
def resolvedProfile (r : IntakeRequest) : Option Profile :=
  match r.exchange, r.profile with
  | .answered d, .body p => if truthy d.access_token && truthy p.username then some p else none
  | _, _ => none

/-! ## The whitelist in `quick.db` -/

/-- The `quick.db` table as this program uses it. The only write of a value is
`db.set(key, true)` (line 448), so the table is the list of its keys, each holding
`true`, in insertion order. -/
abbrev Db := List String

/-- The key under which a user is whitelisted. -/
def wlKey (id : String) : String := "wl_" ++ id

/-- The call `db.get(key)`: the stored value, `none` standing for `null`. -/
def dbGet (db : Db) (key : String) : Option Bool :=
  if db.contains key then some true else none

/-- The call `db.set(key, true)`. -/
def dbSet (db : Db) (key : String) : Db :=
  if db.contains key then db else db ++ [key]

/-- The call `db.delete(key)`. -/
def dbDelete (db : Db) (key : String) : Db :=
  db.filter (fun k => k != key)

/-! ## Slash commands (lines 347-612) -/

/-- The subcommands of `/whitelist`; `user` is `interaction.options.getUser('user').id`. -/
inductive Subcommand where
  | add (user : String)
  | remove (user : String)
  | list
deriving DecidableEq, Repr

/-- The seven registered commands (lines 289-326). -/
inductive Command where
  | refresh
  | whitelist (sub : Subcommand)
  | mybot
  | help
  | joinall
  | users
  | links
deriving DecidableEq, Repr

/-- The `commandName` of a command. -/
def Command.name : Command → String
  | .refresh => "refresh"
  | .whitelist _ => "whitelist"
  | .mybot => "mybot"
  | .help => "help"
  | .joinall => "joinall"
  | .users => "users"
  | .links => "links"

/-- An interaction event: `other` is one for which `interaction.isCommand()` is false. -/
inductive Interaction where
  | other
  | command (authorId : String) (cmd : Command)
deriving DecidableEq, Repr

/-- What the handler sends back through `interaction.reply` / `interaction.editReply`,
by the data each message carries. -/
inductive Reply where
  | permissionDenied (commandName : String)
  | refreshStarting (initialCount : Nat)
  | refreshProgress (processed initialCount validCount removedCount : Nat)
  | refreshComplete (initialCount removedCount remaining : Nat)
  | whitelistAdded (user : String)
  | whitelistAlready (user : String)
  | whitelistRemoved (user : String)
  | whitelistNotPresent (user : String)
  | whitelistList (count : Nat) (lines : List (Nat × String × String))
  | mybot
  | help
  | joinallReadError
  | joinallNoGuild
  | joinallComplete (total success alreadyJoined error : Nat)
  | usersCount (userCount : Nat)
  | links
deriving DecidableEq, Repr

/-- Calls the handler makes to the outside, in the order it makes them. -/
inductive Event where
  | deferReply
  | reply (r : Reply)
  | probe (accessToken : String)
  | join (userID : String) (accessToken : String)
deriving DecidableEq, Repr

/-- The part of `config.json` the handler reads for the gate. -/
structure Config where
  OWNERS : List String

/-- The guild `client.guilds.cache.get(config.MAIN_SERVER_ID)`: whether
`guild.members.fetch` finds the user, and whether `guild.members.add` succeeds. -/
structure Guild where
  isMember : String → Bool
  addOk : String → Bool

/-- What the outside world answers while one interaction is handled. -/
structure Env where
  probe : String → ProbeOutcome
  createOk : Bool
  writeOk : Bool
  guild : Option Guild
  userCache : String → Option String

/-- The two stores the program keeps. -/
structure World where
  file : StoreFile
  db : Db
deriving DecidableEq, Repr

/-- What handling one interaction leaves behind. -/
structure Outcome where
  world : World
  events : List Event
deriving DecidableEq, Repr

/-- Line 352. -/
def isOwnerOrWhitelisted (cfg : Config) (db : Db) (authorId : String) : Bool :=
  cfg.OWNERS.contains authorId || dbGet db (wlKey authorId) == some true

/-- The loop variables of `/refresh` (lines 374-377) and the calls made so far. -/
structure SweepState where
  validUsers : List UserRecord
  validCount : Nat
  removedCount : Nat
  events : List Event
deriving DecidableEq, Repr

/-- The `for` loop of `/refresh` (lines 389-416), from index `i` on, over the records
not yet visited. The test `i === users.length - 1` is written `i + 1 == initialCount`. -/
def refreshLoop (probe : String → ProbeOutcome) (initialCount : Nat) :
    List UserRecord → Nat → SweepState → SweepState
  | [], _, st => st
  | user :: rest, i, st =>
    let isValid := checkTokenValidity (probe user.access_token)
    let st1 : SweepState :=
      if isValid then
        { validUsers := st.validUsers ++ [user], validCount := st.validCount + 1,
          removedCount := st.removedCount,
          events := st.events ++ [.probe user.access_token] }
      else
        { validUsers := st.validUsers, validCount := st.validCount,
          removedCount := st.removedCount + 1,
          events := st.events ++ [.probe user.access_token] }
    let st2 : SweepState :=
      if (i + 1) % 50 == 0 || i + 1 == initialCount then
        { st1 with events := st1.events ++
            [.reply (.refreshProgress (i + 1) initialCount st1.validCount st1.removedCount)] }
      else st1
    refreshLoop probe initialCount rest (i + 1) st2

/-- Body of `/refresh` after the gate (lines 370-435). The boolean returned by
`writeAllUsers` is not read. -/
def refreshBody (env : Env) (w : World) : Outcome :=
  let loaded := getAllUsers w.file env.createOk
  let users := loaded.1
  let initialCount := users.length
  let st := refreshLoop env.probe initialCount users 0
    { validUsers := [], validCount := 0, removedCount := 0,
      events := [.deferReply, .reply (.refreshStarting initialCount)] }
  let saved := writeAllUsers loaded.2 st.validUsers env.writeOk
  { world := { w with file := saved.2 }
    events := st.events ++
      [.reply (.refreshComplete initialCount st.removedCount st.validUsers.length)] }

/-- Body of `/whitelist` after the gate (lines 443-476). -/
def whitelistBody (env : Env) (w : World) : Subcommand → Outcome
  | .add user =>
    if dbGet w.db (wlKey user) == none then
      { world := { w with db := dbSet w.db (wlKey user) }
        events := [.reply (.whitelistAdded user)] }
    else { world := w, events := [.reply (.whitelistAlready user)] }
  | .remove user =>
    if dbGet w.db (wlKey user) != none then
      { world := { w with db := dbDelete w.db (wlKey user) }
        events := [.reply (.whitelistRemoved user)] }
    else { world := w, events := [.reply (.whitelistNotPresent user)] }
  | .list =>
    let blrank := w.db.filter (fun ID => "wl_".isPrefixOf ID)
    let lines := blrank.enum.filterMap (fun (i, ID) =>
      let id := (ID.splitOn "_").getD 1 ""
      (env.userCache id).map (fun tag => (i + 1, tag, id)))
    { world := w, events := [.reply (.whitelistList blrank.length lines)] }

/-- The counters of `/joinall` (lines 526-528) and the calls made so far. -/
structure JoinState where
  success : Nat
  error : Nat
  already_joined : Nat
  events : List Event
deriving DecidableEq, Repr

/-- The `for` loop of `/joinall` (lines 530-550). -/
def joinLoop (guild : Guild) : List UserRecord → JoinState → JoinState
  | [], st => st
  | userData :: rest, st =>
    if guild.isMember userData.userID then
      joinLoop guild rest { st with already_joined := st.already_joined + 1 }
    else if guild.addOk userData.userID then
      joinLoop guild rest
        { st with success := st.success + 1,
                  events := st.events ++ [.join userData.userID userData.access_token] }
    else
      joinLoop guild rest
        { st with error := st.error + 1,
                  events := st.events ++ [.join userData.userID userData.access_token] }

/-- Body of `/joinall` after the gate (lines 511-567). -/
def joinallBody (env : Env) (w : World) : Outcome :=
  match w.file with
  | .missing => { world := w, events := [.deferReply, .reply .joinallReadError] }
  | .unreadable => { world := w, events := [.deferReply, .reply .joinallReadError] }
  | .malformed => { world := w, events := [.deferReply] }
  | .users json =>
    match env.guild with
    | none => { world := w, events := [.deferReply, .reply .joinallNoGuild] }
    | some guild =>
      let st := joinLoop guild json
        { success := 0, error := 0, already_joined := 0, events := [.deferReply] }
      { world := w
        events := st.events ++
          [.reply (.joinallComplete json.length st.success st.already_joined st.error)] }

/-- Body of `/users` after the gate (lines 573-583): `JSON.parse(data).length` raises
unless the file was read and holds a JSON array. -/
def usersBody (w : World) : Outcome :=
  match w.file with
  | .users l => { world := w, events := [.reply (.usersCount l.length)] }
  | _ => { world := w, events := [] }

/-- The command's own logic, what runs once `checkPermission()` has returned true. -/
def commandBody (env : Env) (w : World) : Command → Outcome
  | .refresh => refreshBody env w
  | .whitelist sub => whitelistBody env w sub
  | .mybot => { world := w, events := [.reply .mybot] }
  | .help => { world := w, events := [.reply .help] }
  | .joinall => joinallBody env w
  | .users => usersBody w
  | .links => { world := w, events := [.reply .links] }

/-- Embedding of the handler `client.on("interactionCreate", ...)` (lines 347-612):
each branch starts with `if (!await checkPermission()) return;`, and `checkPermission`
(lines 355-364) replies with the refusal when `isOwnerOrWhitelisted` is false. -/
def interactionCreate (cfg : Config) (env : Env) (w : World) : Interaction → Outcome
  | .other => { world := w, events := [] }
  | .command authorId cmd =>
    let allowed := isOwnerOrWhitelisted cfg w.db authorId
    let refused : Outcome := { world := w, events := [.reply (.permissionDenied cmd.name)] }
    match cmd with
    | .refresh => if !allowed then refused else refreshBody env w
    | .whitelist sub => if !allowed then refused else whitelistBody env w sub
    | .mybot => if !allowed then refused else { world := w, events := [.reply .mybot] }
    | .help => if !allowed then refused else { world := w, events := [.reply .help] }
    | .joinall => if !allowed then refused else joinallBody env w
    | .users => if !allowed then refused else usersBody w
    | .links => if !allowed then refused else { world := w, events := [.reply .links] }

/-- The access tokens handed to `checkTokenValidity`, in call order. -/
def probesOf (events : List Event) : List String :=
  events.filterMap (fun e => match e with | .probe t => some t | _ => none)

/-- The users handed to `guild.members.add`, in call order. -/
def joinsOf (events : List Event) : List String :=
  events.filterMap (fun e => match e with | .join u _ => some u | _ => none)

/-- The messages sent back, in order. -/
def repliesOf (events : List Event) : List Reply :=
  events.filterMap (fun e => match e with | .reply r => some r | _ => none)

/-- The status code an outcome of the probe carries, if it carries one. -/
def ProbeOutcome.status : ProbeOutcome → Option Nat
  | .resolved status => some status
  | .rejected status => status

/-- The Permission Registry's membership test: the right disjunct of line 352,
`db.get("wl_" + id) === true`. -/
def isGranted (db : Db) (id : String) : Bool :=
  dbGet db (wlKey id) == some true

/-! ## Sample inputs -/

/-- A token answer carrying an access and a refresh token. -/
def sampleTokens : TokenData :=
  { access_token := some "at-1", refresh_token := some "rt-1", token_type := some "Bearer" }

/-- The profile of the spec's scenario: user 42, alice. -/
def alice : Profile :=
  { id := "42", username := some "alice", discriminator := "0", avatar := "h1",
    email := some "alice@example.org" }

/-- A request whose exchange and profile request both succeed, resolving to `alice`. -/
def aliceRequest : IntakeRequest :=
  { code := "abc", xForwardedFor := none, remoteAddress := "10.0.0.7",
    exchange := .answered sampleTokens, profile := .body alice, writeOk := true }

/-- A request whose exchange succeeds and whose profile request is rejected. -/
def profileDownRequest : IntakeRequest :=
  { aliceRequest with profile := .rejected }

/-- A request whose exchange request raises. -/
def exchangeDownRequest : IntakeRequest :=
  { aliceRequest with exchange := .raised }

/-- Line 391 for one record: the verdict `isValid` under the provider's answers. -/
def keeps (probe : String → ProbeOutcome) (user : UserRecord) : Bool :=
  checkTokenValidity (probe user.access_token)

/-- A stored record with the given userID and access token. -/
def sampleUser (id token : String) : UserRecord :=
  { userID := id, userIP := "10.0.0.7", avatarURL := "", username := "user#0",
    email := none, access_token := token, refresh_token := none }

/-- The spec's scenario: three users, the second with a revoked token. -/
def threeUsers : List UserRecord :=
  [sampleUser "1" "t1", sampleUser "2" "t2", sampleUser "3" "t3"]

/-- A provider that answers 401 for `t2`, fails without a response for `t3`, and
answers 200 otherwise. -/
def sampleProbe (token : String) : ProbeOutcome :=
  if token == "t2" then .rejected (some 401)
  else if token == "t3" then .rejected none
  else .resolved 200

/-- An outside world in which every write succeeds. -/
def sampleEnv : Env :=
  { probe := sampleProbe, createOk := true, writeOk := true, guild := none,
    userCache := fun _ => none }

/-- The same outside world, except that `writeAllUsers` fails. -/
def failingWriteEnv : Env :=
  { sampleEnv with writeOk := false }

/-- A progress message of `/refresh` (lines 403-414) as it appears in a trace of calls:
the number of probes made before it, and the counts it shows. -/
structure ProgressUpdate where
  probesBefore : Nat
  processed : Nat
  initialCount : Nat
  validCount : Nat
  removedCount : Nat
deriving DecidableEq, Repr

/-- The progress messages of a trace of calls, in order, each with the number of probes
made before it; `made` probes precede the trace. -/
def progressOf : List Event → Nat → List ProgressUpdate
  | [], _ => []
  | e :: es, made =>
    match e with
    | .probe _ => progressOf es (made + 1)
    | .reply (.refreshProgress processed initialCount validCount removedCount) =>
      { probesBefore := made, processed := processed, initialCount := initialCount,
        validCount := validCount, removedCount := removedCount } :: progressOf es made
    | _ => progressOf es made

/-- Line 372: the array the sweep works on, `let users = getAllUsers()`. -/
def sweepUsers (env : Env) (w : World) : List UserRecord :=
  (getAllUsers w.file env.createOk).1

/-! ## Two requests at once: the read and the write of the callback as separate steps -/

/-- The `readFile` callback up to its call of `fs.writeFile` (lines 204-264), on the
file contents that were read: the array it hands to `fs.writeFile`, if it writes, and
the webhook posts it makes. -/
def readStep (file : StoreFile) (ip : String) (userData : Profile) (name : String)
    (ac_token : String) (rf_token : Option String) :
    Option (List UserRecord) × List Notification :=
  match file with
  | .users usersData =>
    let isAlreadyStored := usersData.any (fun ususu => ususu.userID == userData.id)
    if !isAlreadyStored then
      let note : Notification :=
        { tag := name ++ "#" ++ userData.discriminator
          userId := userData.id
          email := if truthy userData.email then userData.email.getD "N/A" else "N/A"
          ip := ip
          accessToken := ac_token
          refreshToken := rf_token }
      (some (usersData ++ [papapa ip userData name ac_token rf_token]), [note])
    else (none, [])
  | _ => (none, [])

/-- The `fs.writeFile` of lines 262-270 taking effect: the file is replaced by the array
handed over when the callback ran, whatever the file holds by now. -/
def writeStep (file : StoreFile) (pending : Option (List UserRecord)) (writeOk : Bool) :
    StoreFile :=
  match pending with
  | some written => if writeOk then .users written else file
  | none => file

/-- The store read of a request: what its callback hands to `fs.writeFile` when the file
read is `file`; nothing when the handler ends before the read (lines 183-199) or the
callback does not write. -/
def intakeRead (file : StoreFile) (r : IntakeRequest) : Option (List UserRecord) :=
  match r.exchange with
  | .raised => none
  | .answered tokenData =>
    match tokenData.access_token with
    | none => none
    | some ac_token =>
      if ac_token == "" then none
      else
        match r.profile with
        | .body userData =>
          match userData.username with
          | none => none
          | some name =>
            if name == "" then none
            else (readStep file (sourceIp r) userData name ac_token tokenData.refresh_token).1
        | _ => none

/-- Which of the two requests a step belongs to. -/
inductive Who where
  | first
  | second
deriving DecidableEq, Repr

/-- A step on the user file: the read that feeds a request's callback, or the write the
callback asked for taking effect. -/
inductive Step where
  | read (who : Who)
  | write (who : Who)
deriving DecidableEq, Repr

/-- The user file and what each of the two callbacks has handed to `fs.writeFile`. -/
structure Race where
  file : StoreFile
  pending1 : Option (List UserRecord)
  pending2 : Option (List UserRecord)
deriving DecidableEq, Repr

/-- One step of two requests served at once. -/
def raceStep (r1 r2 : IntakeRequest) (s : Race) : Step → Race
  | .read .first => { s with pending1 := intakeRead s.file r1 }
  | .read .second => { s with pending2 := intakeRead s.file r2 }
  | .write .first => { s with file := writeStep s.file s.pending1 r1.writeOk }
  | .write .second => { s with file := writeStep s.file s.pending2 r2.writeOk }

/-- The user file after the steps of two requests are taken in the given order. -/
def race (r1 r2 : IntakeRequest) (file : StoreFile) (steps : List Step) : StoreFile :=
  (steps.foldl (raceStep r1 r2) { file := file, pending1 := none, pending2 := none }).file

/-- All ways to merge two sequences, each keeping its own order. -/
def merges {α : Type} : List α → List α → List (List α)
  | [], ys => [ys]
  | x :: xs, [] => [x :: xs]
  | x :: xs, y :: ys =>
    (merges xs (y :: ys)).map (fun m => x :: m) ++ (merges (x :: xs) ys).map (fun m => y :: m)
termination_by xs ys => xs.length + ys.length

/-- The interleavings of the read and write of one request with those of the other. -/
def interleavings : List (List Step) :=
  merges [.read .first, .write .first] [.read .second, .write .second]

/-- A second user, for the race examples. -/
def bob : Profile :=
  { id := "43", username := some "bob", discriminator := "0", avatar := "h2", email := none }

/-- A request that resolves to `bob`. -/
def bobRequest : IntakeRequest :=
  { code := "def", xForwardedFor := some "10.0.0.8", remoteAddress := "10.0.0.1",
    exchange := .answered { access_token := some "at-2", refresh_token := none,
                            token_type := some "Bearer" },
    profile := .body bob, writeOk := true }

/-- A second authorisation of `alice`, issued other tokens. -/
def aliceAgainRequest : IntakeRequest :=
  { aliceRequest with
    exchange := .answered { access_token := some "at-9", refresh_token := some "rt-9",
                            token_type := some "Bearer" } }

/-! ## The text of the user file: `JSON.stringify` and `JSON.parse`

The two built-ins as the program uses them on `./object.json`: the text
`JSON.stringify(users, null, 2)` writes for an array of records, and what `JSON.parse`
reads from a text that is an array of objects whose values are strings or `null`. Other
JSON values (numbers, booleans, nested arrays and objects) and `\u` escapes of surrogates
are outside the shape of the user file: a text with them is taken as one that does not
parse. -/

/-- The lower-case hexadecimal digit of a number below 16. -/
def hexDigit (n : Nat) : Char :=
  if n < 10 then Char.ofNat (48 + n) else Char.ofNat (87 + n)

/-- The value of a hexadecimal digit, either case. -/
def hexValue (c : Char) : Option Nat :=
  if 48 ≤ c.toNat ∧ c.toNat ≤ 57 then some (c.toNat - 48)
  else if 97 ≤ c.toNat ∧ c.toNat ≤ 102 then some (c.toNat - 87)
  else if 65 ≤ c.toNat ∧ c.toNat ≤ 70 then some (c.toNat - 55)
  else none

/-- How `JSON.stringify` writes one character of a string (QuoteJSONString). -/
def escapeChar (c : Char) : List Char :=
  if c = '\x22' then ['\x5c', '\x22']
  else if c = '\x5c' then ['\x5c', '\x5c']
  else if c = '\x08' then ['\x5c', 'b']
  else if c = '\x0c' then ['\x5c', 'f']
  else if c = '\x0a' then ['\x5c', 'n']
  else if c = '\x0d' then ['\x5c', 'r']
  else if c = '\x09' then ['\x5c', 't']
  else if c.toNat < 32 then
    ['\x5c', 'u', '0', '0', hexDigit (c.toNat / 16), hexDigit (c.toNat % 16)]
  else [c]

/-- The characters `JSON.stringify` writes between the quotes of a string. -/
def escape : List Char → List Char
  | [] => []
  | c :: cs => escapeChar c ++ escape cs

/-- The character a one-letter escape stands for. -/
def unescape (e : Char) : Option Char :=
  if e = '\x22' then some '\x22'
  else if e = '\x5c' then some '\x5c'
  else if e = '/' then some '/'
  else if e = 'b' then some '\x08'
  else if e = 'f' then some '\x0c'
  else if e = 'n' then some '\x0a'
  else if e = 'r' then some '\x0d'
  else if e = 't' then some '\x09'
  else none

/-- The code of a `\uXXXX` escape. -/
def hexCode (h1 h2 h3 h4 : Char) : Option Nat :=
  match hexValue h1, hexValue h2, hexValue h3, hexValue h4 with
  | some a, some b, some c, some d => some (((a * 16 + b) * 16 + c) * 16 + d)
  | _, _, _, _ => none

/-- `JSON.parse` inside a string, one character: the character that the text starts
with, written plainly or as an escape, and the text after it. -/
def parseChar : List Char → Option (Char × List Char)
  | [] => none
  | c :: cs =>
    if c = '\x5c' then
      match cs with
      | [] => none
      | e :: es =>
        if e = 'u' then
          match es with
          | h1 :: h2 :: h3 :: h4 :: rest =>
            match hexCode h1 h2 h3 h4 with
            | some n => if 55296 ≤ n ∧ n ≤ 57343 then none else some (Char.ofNat n, rest)
            | none => none
          | _ => none
        else
          match unescape e with
          | some ch => some (ch, es)
          | none => none
    else if c.toNat < 32 then none
    else some (c, cs)

/-- `JSON.parse` inside a string: the characters up to the closing quote, and the text
after it; `fuel` bounds the number of characters read. -/
def parseCharsFuel : Nat → List Char → Option (List Char × List Char)
  | 0, _ => none
  | fuel + 1, cs =>
    match cs with
    | [] => none
    | c :: rest =>
      if c = '\x22' then some ([], rest)
      else
        match parseChar (c :: rest) with
        | some (ch, rest1) =>
          match parseCharsFuel fuel rest1 with
          | some (s, r) => some (ch :: s, r)
          | none => none
        | none => none

/-- `JSON.parse` inside a string, with fuel for the whole text. -/
def parseChars (cs : List Char) : Option (List Char × List Char) :=
  parseCharsFuel cs.length cs

/-- A property of a JSON object as the user file needs it: its key, and its value, a
string or `null` (`none`). -/
abbrev Member := List Char × Option (List Char)

/-- A string between quotes, followed by the text `k`. -/
def printString (s k : List Char) : List Char :=
  '\x22' :: (escape s ++ '\x22' :: k)

/-- A value, followed by the text `k`. -/
def printValue : Option (List Char) → List Char → List Char
  | some s, k => printString s k
  | none, k => 'n' :: 'u' :: 'l' :: 'l' :: k

/-- One property on its own line, indented by four: the key, a colon and a blank, the value. -/
def printMember (m : Member) (k : List Char) : List Char :=
  ' ' :: ' ' :: ' ' :: ' ' :: printString m.1 (':' :: ' ' :: printValue m.2 k)

/-- The properties after the first, each after a comma and a line break. -/
def printMoreMembers : List Member → List Char → List Char
  | [], k => k
  | m :: ms, k => ',' :: '\x0a' :: printMember m (printMoreMembers ms k)

/-- An object that is an element of the array, with indentation 2. -/
def printObject : List Member → List Char → List Char
  | [], k => '\x7b' :: '\x7d' :: k
  | m :: ms, k =>
    '\x7b' :: '\x0a' :: printMember m
      (printMoreMembers ms ('\x0a' :: ' ' :: ' ' :: '\x7d' :: k))

/-- The elements after the first, each after a comma and a line break, indented by two. -/
def printMoreElements : List (List Member) → List Char → List Char
  | [], k => k
  | o :: os, k => ',' :: '\x0a' :: ' ' :: ' ' :: printObject o (printMoreElements os k)

/-- The text of an array of objects as `JSON.stringify(value, null, 2)` writes it. -/
def printArray : List (List Member) → List Char
  | [] => ['[', ']']
  | o :: os => '[' :: '\x0a' :: ' ' :: ' ' :: printObject o (printMoreElements os ['\x0a', ']'])

/-- JSON white space is skipped. -/
def skipWs : List Char → List Char
  | [] => []
  | c :: cs => if c = ' ' ∨ c = '\x0a' ∨ c = '\x0d' ∨ c = '\x09' then skipWs cs else c :: cs

/-- A value: a string or `null`. Any other value is outside the user file's shape. -/
def parseValue (cs : List Char) : Option (Option (List Char) × List Char) :=
  match cs with
  | [] => none
  | c :: rest =>
    if c = '\x22' then
      match parseChars rest with
      | some (s, r) => some (some s, r)
      | none => none
    else if cs.take 4 = ['n', 'u', 'l', 'l'] then some (none, cs.drop 4)
    else none

/-- A property, from the opening quote of its key. -/
def parseMember (cs : List Char) : Option (Member × List Char) :=
  match cs with
  | [] => none
  | c :: cs1 =>
    if c = '\x22' then
      match parseChars cs1 with
      | some (key, cs2) =>
        match skipWs cs2 with
        | [] => none
        | d :: cs3 =>
          if d = ':' then
            match parseValue (skipWs cs3) with
            | some (v, cs4) => some ((key, v), cs4)
            | none => none
          else none
      | none => none
    else none

/-- The rest of an object after a property: the closing brace, or a comma and more. -/
def parseMoreMembers : Nat → List Char → Option (List Member × List Char)
  | 0, _ => none
  | fuel + 1, cs =>
    match skipWs cs with
    | [] => none
    | c :: cs1 =>
      if c = '\x7d' then some ([], cs1)
      else if c = ',' then
        match parseMember (skipWs cs1) with
        | some (m, cs2) =>
          match parseMoreMembers fuel cs2 with
          | some (ms, r) => some (m :: ms, r)
          | none => none
        | none => none
      else none

/-- An object, from its opening brace. -/
def parseObject (cs : List Char) : Option (List Member × List Char) :=
  match cs with
  | [] => none
  | c :: cs1 =>
    if c = '\x7b' then
      match skipWs cs1 with
      | [] => none
      | d :: cs2 =>
        if d = '\x7d' then some ([], cs2)
        else
          match parseMember (d :: cs2) with
          | some (m, cs3) =>
            match parseMoreMembers (cs3.length + 1) cs3 with
            | some (ms, r) => some (m :: ms, r)
            | none => none
          | none => none
    else none

/-- The rest of an array after an element: the closing bracket, or a comma and more. -/
def parseMoreElements : Nat → List Char → Option (List (List Member) × List Char)
  | 0, _ => none
  | fuel + 1, cs =>
    match skipWs cs with
    | [] => none
    | c :: cs1 =>
      if c = ']' then some ([], cs1)
      else if c = ',' then
        match parseObject (skipWs cs1) with
        | some (o, cs2) =>
          match parseMoreElements fuel cs2 with
          | some (os, r) => some (o :: os, r)
          | none => none
        | none => none
      else none

/-- A whole text: an array of objects and nothing after it but white space. -/
def parseText (cs : List Char) : Option (List (List Member)) :=
  match skipWs cs with
  | [] => none
  | c :: cs1 =>
    if c = '[' then
      match skipWs cs1 with
      | [] => none
      | d :: cs2 =>
        if d = ']' then (if skipWs cs2 = [] then some [] else none)
        else
          match parseObject (d :: cs2) with
          | some (o, cs3) =>
            match parseMoreElements (cs3.length + 1) cs3 with
            | some (os, r) => if skipWs r = [] then some (o :: os) else none
            | none => none
          | none => none
    else none

/-- The key `userID` of a record (line 252). -/
def keyUserID : List Char := ['u', 's', 'e', 'r', 'I', 'D']

/-- The key `userIP` of a record (line 253). -/
def keyUserIP : List Char := ['u', 's', 'e', 'r', 'I', 'P']

/-- The key `avatarURL` of a record (line 254). -/
def keyAvatarURL : List Char := ['a', 'v', 'a', 't', 'a', 'r', 'U', 'R', 'L']

/-- The key `username` of a record (line 255). -/
def keyUsername : List Char := ['u', 's', 'e', 'r', 'n', 'a', 'm', 'e']

/-- The key `email` of a record (line 257). -/
def keyEmail : List Char := ['e', 'm', 'a', 'i', 'l']

/-- The key `access_token` of a record (line 258). -/
def keyAccessToken : List Char := ['a', 'c', 'c', 'e', 's', 's', '_', 't', 'o', 'k', 'e', 'n']

/-- The key `refresh_token` of a record (line 259). -/
def keyRefreshToken : List Char :=
  ['r', 'e', 'f', 'r', 'e', 's', 'h', '_', 't', 'o', 'k', 'e', 'n']

/-- The property `JSON.stringify` writes for a field that need not hold a string: the
string; for a field without one, `null` when the field is `null`, and nothing when it is
`undefined` (`dropNone`). -/
def optionalMember (dropNone : Bool) (key : List Char) : Option String → List Member
  | some s => [(key, some s.data)]
  | none => if dropNone then [] else [(key, none)]

/-- The properties of a record, in the order of the object literal (lines 252-259). -/
def membersOf (dropNone : Bool) (u : UserRecord) : List Member :=
  [(keyUserID, some u.userID.data), (keyUserIP, some u.userIP.data),
    (keyAvatarURL, some u.avatarURL.data), (keyUsername, some u.username.data)] ++
    optionalMember dropNone keyEmail u.email ++
    [(keyAccessToken, some u.access_token.data)] ++
    optionalMember dropNone keyRefreshToken u.refresh_token

/-- `JSON.stringify(users, null, 2)` on an array of records (lines 98 and 264). -/
def jsonStringify (dropNone : Bool) (users : List UserRecord) : String :=
  String.mk (printArray (users.map (membersOf dropNone)))

/-- The value of a property of a parsed object; the last of several with the key counts. -/
def lookupMember (key : List Char) : List Member → Option (Option (List Char))
  | [] => none
  | m :: ms =>
    match lookupMember key ms with
    | some v => some v
    | none => if m.1 = key then some m.2 else none

/-- A property that must hold a string. -/
def readString (key : List Char) (o : List Member) : Option String :=
  match lookupMember key o with
  | some (some s) => some (String.mk s)
  | _ => none

/-- A property that may be missing or `null`. -/
def readOptional (key : List Char) (o : List Member) : Option (Option String) :=
  match lookupMember key o with
  | some (some s) => some (some (String.mk s))
  | some none => some none
  | none => some none

/-- The record a parsed object stands for. -/
def recordOf (o : List Member) : Option UserRecord :=
  match readString keyUserID o, readString keyUserIP o, readString keyAvatarURL o,
    readString keyUsername o, readOptional keyEmail o, readString keyAccessToken o,
    readOptional keyRefreshToken o with
  | some userID, some userIP, some avatarURL, some username, some email, some access_token,
    some refresh_token =>
    some { userID := userID, userIP := userIP, avatarURL := avatarURL, username := username,
           email := email, access_token := access_token, refresh_token := refresh_token }
  | _, _, _, _, _, _, _ => none

/-- The records a parsed array stands for. -/
def recordsOf : List (List Member) → Option (List UserRecord)
  | [] => some []
  | o :: os =>
    match recordOf o, recordsOf os with
    | some u, some us => some (u :: us)
    | _, _ => none

/-- `JSON.parse(data)` on the text of the user file, read as an array of records; `none`
when the text does not parse or is not such an array. -/
def jsonParse (text : String) : Option (List UserRecord) :=
  match parseText text.data with
  | some os => recordsOf os
  | none => none

/-- What is on disk at `./object.json`, with its text: no file, a file that cannot be
read, or a file holding the text `t`. -/
inductive Disk where
  | absent
  | locked
  | text (t : String)
deriving DecidableEq, Repr

/-- The state of the user file as `StoreFile` sees it. -/
def Disk.toStoreFile : Disk → StoreFile
  | .absent => .missing
  | .locked => .unreadable
  | .text t =>
    match jsonParse t with
    | some l => .users l
    | none => .malformed

/-- Embedding of `getAllUsers` (lines 77-89) on the text of the file: the returned array
and the disk afterwards. -/
def getAllUsersText (disk : Disk) (createOk : Bool) : List UserRecord × Disk :=
  match disk with
  | .absent => if createOk then ([], .text "[]") else ([], .absent)
  | .locked => ([], .locked)
  | .text t =>
    match jsonParse t with
    | some l => (l, .text t)
    | none => ([], .text t)

/-- Embedding of `writeAllUsers` (lines 96-104) on the text of the file: the returned
boolean and the disk afterwards. `dropNone` says whether a field of the records without
a string is `undefined` or `null`; `writeOk` is the outcome of `fs.writeFileSync`. -/
def writeAllUsersText (disk : Disk) (users : List UserRecord) (dropNone writeOk : Bool) :
    Bool × Disk :=
  if writeOk then (true, .text (jsonStringify dropNone users)) else (false, disk)

/-! # Properties -/

/-! ## Token probe -/

/-- C4, as stated, fails: a probe fulfilled with status 204 is no 401 response, and
`checkTokenValidity` returns false on it. -/
theorem checkTokenValidity_false_without_401 :
    checkTokenValidity (.resolved 204) = false ∧
      (ProbeOutcome.resolved 204).status ≠ some 401 := by
  decide

/-- C4, amended: `checkTokenValidity` returns false exactly when the probe is rejected
with a 401 response or is fulfilled with a status other than 200; on every other outcome
(fulfilled with 200, rejected with another status, rejected without a response) it
returns true. -/
theorem checkTokenValidity_false_iff (o : ProbeOutcome) :
    (checkTokenValidity o = false ↔
        o = .rejected (some 401) ∨ ∃ status, o = .resolved status ∧ status ≠ 200) ∧
      (checkTokenValidity o = true ↔
        o = .resolved 200 ∨ o = .rejected none ∨
          ∃ status, o = .rejected (some status) ∧ status ≠ 401) := by
  cases o with
  | resolved status =>
    by_cases h : status = 200 <;> simp [checkTokenValidity, h]
  | rejected status =>
    cases status with
    | none => simp [checkTokenValidity]
    | some status => by_cases h : status = 401 <;> simp [checkTokenValidity, h]

/-! ## Whitelist -/

/-- A user is granted exactly when the key `wl_<id>` is in the table. -/
theorem isGranted_iff (db : Db) (x : String) : isGranted db x = true ↔ wlKey x ∈ db := by
  unfold isGranted dbGet
  by_cases h : wlKey x ∈ db <;> simp [h]

/-- C8: `/whitelist add x` reports newly-granted exactly when `x` was not granted, and
`x` is granted afterwards; on a granted `x` it reports already-granted and changes
nothing, so a second add in a row reports already-granted. `/whitelist remove x` reports
removed exactly when `x` was granted, and `x` is not granted afterwards; on an ungranted
`x` it reports not-present and changes nothing. -/
theorem whitelist_add_remove (env : Env) (w : World) (x : String) :
    ((whitelistBody env w (.add x)).events = [.reply (.whitelistAdded x)] ↔
        isGranted w.db x = false) ∧
      ((whitelistBody env w (.add x)).events = [.reply (.whitelistAlready x)] ↔
        isGranted w.db x = true) ∧
      isGranted (whitelistBody env w (.add x)).world.db x = true ∧
      (isGranted w.db x = true → (whitelistBody env w (.add x)).world = w) ∧
      (whitelistBody env (whitelistBody env w (.add x)).world (.add x)).events =
        [.reply (.whitelistAlready x)] ∧
      ((whitelistBody env w (.remove x)).events = [.reply (.whitelistRemoved x)] ↔
        isGranted w.db x = true) ∧
      ((whitelistBody env w (.remove x)).events = [.reply (.whitelistNotPresent x)] ↔
        isGranted w.db x = false) ∧
      isGranted (whitelistBody env w (.remove x)).world.db x = false ∧
      (isGranted w.db x = false → (whitelistBody env w (.remove x)).world = w) := by
  by_cases h : wlKey x ∈ w.db
  · simp [whitelistBody, isGranted, dbGet, dbSet, dbDelete, h]
  · simp [whitelistBody, isGranted, dbGet, dbSet, dbDelete, h]

/-! ## The OAuth2 callback -/

/-- A request resolves to a profile exactly when the exchange answers with a non-empty
access token and the profile answer is an object with a non-empty username. -/
theorem resolvedProfile_eq_some (r : IntakeRequest) (p : Profile) :
    resolvedProfile r = some p ↔
      ∃ d ac name, r.exchange = .answered d ∧ d.access_token = some ac ∧ ac ≠ "" ∧
        r.profile = .body p ∧ p.username = some name ∧ name ≠ "" := by
  rcases r with ⟨code, xff, ra, _ | ⟨_ | ac, rf, tt⟩, _ | _ | _ | ⟨id, _ | name, dc, av, em⟩, wo⟩ <;>
    simp [resolvedProfile, truthy]
  · rintro _ rfl x hx
    simp at hx
  constructor
  · rintro ⟨⟨h1, h2⟩, rfl⟩
    exact ⟨h1, rfl, name, rfl, h2⟩
  · rintro ⟨h1, rfl, x, hx, h2⟩
    simp only [Option.some.injEq] at hx
    exact ⟨⟨h1, hx ▸ h2⟩, rfl⟩

/-- What `intake` does for a request that resolves to a profile: status 200 and the
outcome of the `readFile` callback. -/
theorem intake_of_resolved (file : StoreFile) (r : IntakeRequest) (d : TokenData)
    (ac name : String) (p : Profile) (hx : r.exchange = .answered d)
    (hac : d.access_token = some ac) (hne : ac ≠ "") (hp : r.profile = .body p)
    (hn : p.username = some name) (hnn : name ≠ "") :
    intake file r =
      { status := 200
        file := (readFileCallback file (sourceIp r) p name ac d.refresh_token r.writeOk).1
        notifications :=
          (readFileCallback file (sourceIp r) p name ac d.refresh_token r.writeOk).2 } := by
  simp [intake, hx, hac, hne, hp, hn, hnn]

/-- A request that resolves to no profile is answered without touching the file. -/
theorem intake_of_unresolved (file : StoreFile) (r : IntakeRequest)
    (h : resolvedProfile r = none) :
    (intake file r).file = file ∧ (intake file r).notifications = [] ∧
      (intake file r).status ≠ 200 := by
  rcases r with ⟨code, xff, ra, _ | ⟨_ | ac, rf, tt⟩, _ | _ | _ | ⟨id, _ | name, dc, av, em⟩, wo⟩ <;>
    simp [intake] <;>
    first
      | (split <;> simp)
      | skip
  all_goals
    simp [resolvedProfile, truthy] at h
    by_cases h1 : ac = "" <;> simp [h1]
    simp [h h1]

/-- C6: when the userId of the profile a request resolves to is already in the user
file, the file after the request is the file before it, whatever tokens the request was
issued; no webhook post is made and the status is 200. -/
theorem intake_dedupe (l : List UserRecord) (r : IntakeRequest) (p : Profile)
    (hres : resolvedProfile r = some p) (hin : ∃ u ∈ l, u.userID = p.id) :
    intake (.users l) r = { status := 200, file := .users l, notifications := [] } := by
  obtain ⟨d, ac, name, hx, hac, hne, hp, hn, hnn⟩ := (resolvedProfile_eq_some r p).1 hres
  rw [intake_of_resolved (.users l) r d ac name p hx hac hne hp hn hnn]
  have hany : l.any (fun ususu => ususu.userID == p.id) = true := by
    obtain ⟨u, hu, hid⟩ := hin
    exact List.any_eq_true.2 ⟨u, hu, by simp [hid]⟩
  simp [readFileCallback, hany]

/-- C6 at a sample input: user 42 is stored with an old token and authorises again with
newly issued tokens; the file keeps the old record. -/
theorem intake_dedupe_witness :
    resolvedProfile aliceRequest = some alice ∧
      intake (.users [sampleUser "42" "old-token"]) aliceRequest =
        { status := 200, file := .users [sampleUser "42" "old-token"], notifications := [] } :=
  ⟨by decide,
    intake_dedupe [sampleUser "42" "old-token"] aliceRequest alice (by decide)
      ⟨sampleUser "42" "old-token", List.mem_singleton.2 rfl, by decide⟩⟩

/-- C9, as stated, fails twice: a rejected profile request is answered 500, not 400, and
an exchange that raises is answered 400, not 500. -/
theorem intake_status_swapped :
    (intake (.users []) profileDownRequest).status = 500 ∧
      (intake (.users []) exchangeDownRequest).status = 400 := by
  decide

/-- C9, amended: the status is 200 when the exchange yields an access token and the
profile answer carries a username; 400 when the exchange raises or yields no access
token, or when the profile answer is empty or lacks a username; 500 when the profile
request is rejected or its answer is `null`; whenever the status is not 200 the user
file is unchanged and no webhook post is made. -/
theorem intake_status (file : StoreFile) (r : IntakeRequest) :
    ((∃ p, resolvedProfile r = some p) → (intake file r).status = 200) ∧
      (r.exchange = .raised → (intake file r).status = 400) ∧
      (∀ d, r.exchange = .answered d → truthy d.access_token = false →
        (intake file r).status = 400) ∧
      (∀ d, r.exchange = .answered d → truthy d.access_token = true →
        r.profile = .rejected ∨ r.profile = .nullBody → (intake file r).status = 500) ∧
      (∀ d, r.exchange = .answered d → truthy d.access_token = true →
        (r.profile = .emptyBody ∨ ∃ p, r.profile = .body p ∧ truthy p.username = false) →
        (intake file r).status = 400) ∧
      ((intake file r).status ≠ 200 →
        (intake file r).file = file ∧ (intake file r).notifications = []) := by
  rcases r with ⟨code, xff, ra, _ | ⟨_ | ac, rf, tt⟩, _ | _ | _ | ⟨id, _ | name, dc, av, em⟩, wo⟩ <;>
    simp [intake, resolvedProfile, truthy] <;>
    by_cases h1 : ac = "" <;> simp [h1]
  by_cases h2 : name = "" <;> simp [h2]

/-- The record and the webhook post a request leaves when its identity is new and the
write succeeds or fails. -/
theorem intake_new (l : List UserRecord) (r : IntakeRequest) (d : TokenData)
    (ac name : String) (p : Profile) (hx : r.exchange = .answered d)
    (hac : d.access_token = some ac) (hne : ac ≠ "") (hp : r.profile = .body p)
    (hn : p.username = some name) (hnn : name ≠ "") (hnew : ∀ u ∈ l, u.userID ≠ p.id) :
    (intake (.users l) r).status = 200 ∧
      (intake (.users l) r).file =
        (if r.writeOk then
          .users (l ++ [papapa (sourceIp r) p name ac d.refresh_token])
        else .users l) ∧
      (intake (.users l) r).notifications.length = 1 := by
  rw [intake_of_resolved (.users l) r d ac name p hx hac hne hp hn hnn]
  have hany : l.any (fun ususu => ususu.userID == p.id) = false := by
    rw [List.any_eq_false]
    intro u hu
    simpa using hnew u hu
  simp [readFileCallback, hany]

/-- One request served on a file holding records with distinct userIDs: the file holds
such records afterwards, with the userIDs it had and the one the request resolves to. -/
theorem intake_step_ids (l : List UserRecord) (r : IntakeRequest) (hw : r.writeOk = true)
    (hnd : (l.map (fun u => u.userID)).Nodup) :
    ∃ l', (intake (.users l) r).file = .users l' ∧
      (l'.map (fun u => u.userID)).Nodup ∧
      ∀ id, id ∈ l'.map (fun u => u.userID) ↔
        id ∈ l.map (fun u => u.userID) ∨ ∃ p, resolvedProfile r = some p ∧ p.id = id := by
  rcases hres : resolvedProfile r with _ | p
  · refine ⟨l, (intake_of_unresolved _ r hres).1, hnd, ?_⟩
    intro id
    simp
  · obtain ⟨d, ac, name, hx, hac, hne, hp, hn, hnn⟩ := (resolvedProfile_eq_some r p).1 hres
    by_cases hin : ∃ u ∈ l, u.userID = p.id
    · refine ⟨l, ?_, hnd, ?_⟩
      · rw [intake_of_resolved (.users l) r d ac name p hx hac hne hp hn hnn]
        have hany : l.any (fun ususu => ususu.userID == p.id) = true := by
          obtain ⟨u, hu, hid⟩ := hin
          exact List.any_eq_true.2 ⟨u, hu, by simp [hid]⟩
        simp [readFileCallback, hany]
      · intro id
        constructor
        · intro h; exact Or.inl h
        · rintro (h | ⟨q, hq, rfl⟩)
          · exact h
          · simp only [Option.some.injEq] at hq
            subst hq
            obtain ⟨u, hu, hid⟩ := hin
            exact List.mem_map.2 ⟨u, hu, hid⟩
    · have hnew : ∀ u ∈ l, u.userID ≠ p.id := fun u hu he => hin ⟨u, hu, he⟩
      obtain ⟨-, hfile, -⟩ := intake_new l r d ac name p hx hac hne hp hn hnn hnew
      refine ⟨l ++ [papapa (sourceIp r) p name ac d.refresh_token], ?_, ?_, ?_⟩
      · rw [hfile, hw]; rfl
      · rw [List.map_append, List.nodup_append]
        refine ⟨hnd, by simp, ?_⟩
        intro a ha hb
        simp only [List.map_cons, List.map_nil, List.mem_singleton, papapa] at hb
        subst hb
        obtain ⟨u, hu, hid⟩ := List.mem_map.1 ha
        exact hnew u hu hid
      · intro id
        simp [papapa, eq_comm]

/-- C1: after any finite sequence of `POST /` requests served one after the other to
completion (every write they make completes), starting from a user file holding the
empty array, the file holds an array of records with pairwise distinct userIDs, and a
userID is among them exactly when some request of the sequence resolves to a profile
with that id. -/
theorem intake_sequence_unique (reqs : List IntakeRequest)
    (hw : ∀ r ∈ reqs, r.writeOk = true) :
    ∃ l, intakeAll (.users []) reqs = .users l ∧
      (l.map (fun u => u.userID)).Nodup ∧
      ∀ id, id ∈ l.map (fun u => u.userID) ↔
        ∃ r ∈ reqs, ∃ p, resolvedProfile r = some p ∧ p.id = id := by
  have key : ∀ (reqs : List IntakeRequest) (l0 : List UserRecord),
      (∀ r ∈ reqs, r.writeOk = true) → (l0.map (fun u => u.userID)).Nodup →
      ∃ l, intakeAll (.users l0) reqs = .users l ∧
        (l.map (fun u => u.userID)).Nodup ∧
        ∀ id, id ∈ l.map (fun u => u.userID) ↔
          id ∈ l0.map (fun u => u.userID) ∨
            ∃ r ∈ reqs, ∃ p, resolvedProfile r = some p ∧ p.id = id := by
    intro reqs
    induction reqs with
    | nil =>
      intro l0 _ hnd
      exact ⟨l0, rfl, hnd, by simp⟩
    | cons r rs ih =>
      intro l0 hw hnd
      obtain ⟨l1, hfile, hnd1, hids1⟩ :=
        intake_step_ids l0 r (hw r (List.mem_cons_self _ _)) hnd
      obtain ⟨l, hl, hndl, hidsl⟩ :=
        ih l1 (fun x hx => hw x (List.mem_cons_of_mem _ hx)) hnd1
      refine ⟨l, ?_, hndl, ?_⟩
      · simp only [intakeAll, hfile]
        exact hl
      · intro id
        rw [hidsl, hids1, or_assoc]
        simp only [List.mem_cons, exists_eq_or_imp]
  obtain ⟨l, hl, hnd, hids⟩ := key reqs [] hw (by simp)
  exact ⟨l, hl, hnd, by simpa using hids⟩

/-- C1 at the spec's scenario: user 42 submitted twice from an empty array. -/
theorem intake_sequence_unique_witness :
    (∀ r ∈ [aliceRequest, aliceRequest], r.writeOk = true) ∧
      ∃ l, intakeAll (.users []) [aliceRequest, aliceRequest] = .users l ∧
        (l.map (fun u => u.userID)).Nodup ∧
        ∀ id, id ∈ l.map (fun u => u.userID) ↔
          ∃ r ∈ [aliceRequest, aliceRequest], ∃ p, resolvedProfile r = some p ∧ p.id = id :=
  ⟨by decide, intake_sequence_unique [aliceRequest, aliceRequest] (by decide)⟩

/-- The spec's scenario evaluated: one record after the first request, still one after
the second. -/
theorem intake_scenario :
    (intakeAll (.users []) [aliceRequest]) =
        .users [papapa "10.0.0.7" alice "alice" "at-1" (some "rt-1")] ∧
      intakeAll (.users []) [aliceRequest, aliceRequest] =
        .users [papapa "10.0.0.7" alice "alice" "at-1" (some "rt-1")] := by
  decide

/-- C7 fails on the code when `./object.json` does not exist: the request resolves to
`alice`, is answered 200, and the file is still missing afterwards; no record is
written. -/
theorem intake_missing_file :
    resolvedProfile aliceRequest = some alice ∧
      intake .missing aliceRequest =
        { status := 200, file := .missing, notifications := [] } := by
  decide

/-! ## The refresh sweep -/

/-- The probes of two stretches of calls, one after the other. -/
theorem probesOf_append (a b : List Event) : probesOf (a ++ b) = probesOf a ++ probesOf b := by
  simp [probesOf, List.filterMap_append]

/-- What the loop of `/refresh` computes from any loop state. -/
theorem refreshLoop_spec (probe : String → ProbeOutcome) (n : Nat) (users : List UserRecord) :
    ∀ (i : Nat) (st : SweepState),
      (refreshLoop probe n users i st).validUsers =
          st.validUsers ++ users.filter (keeps probe) ∧
        (refreshLoop probe n users i st).validCount =
          st.validCount + (users.filter (keeps probe)).length ∧
        (refreshLoop probe n users i st).removedCount =
          st.removedCount + (users.filter (fun u => !keeps probe u)).length ∧
        probesOf (refreshLoop probe n users i st).events =
          probesOf st.events ++ users.map (fun u => u.access_token) := by
  induction users with
  | nil => intro i st; simp [refreshLoop]
  | cons user rest ih =>
    intro i st
    simp only [refreshLoop]
    by_cases hv : checkTokenValidity (probe user.access_token) = true <;>
      by_cases hp : ((i + 1) % 50 == 0 || i + 1 == n) = true <;>
      simp only [hv, hp, if_true, if_false, Bool.false_eq_true] <;>
      (obtain ⟨h1, h2, h3, h4⟩ := ih (i + 1) _
       rw [h1, h2, h3, h4]
       simp [keeps, hv, probesOf_append, probesOf]
       try omega)

/-- The last call of the body of `/refresh` is the completion summary. -/
theorem refreshBody_last (env : Env) (w : World) :
    (refreshBody env w).events.getLast? =
      some (.reply (.refreshComplete (getAllUsers w.file env.createOk).1.length
        ((getAllUsers w.file env.createOk).1.filter (fun u => !keeps env.probe u)).length
        ((getAllUsers w.file env.createOk).1.filter (keeps env.probe)).length)) := by
  unfold refreshBody
  obtain ⟨h1, -, h3, -⟩ := refreshLoop_spec env.probe (getAllUsers w.file env.createOk).1.length
    (getAllUsers w.file env.createOk).1 0
    { validUsers := [], validCount := 0, removedCount := 0,
      events := [.deferReply, .reply (.refreshStarting (getAllUsers w.file env.createOk).1.length)] }
  rw [List.getLast?_concat, h1, h3]
  simp

/-- The file the body of `/refresh` leaves when it started on an array: the kept
records if the final write succeeds, the array as it was if it fails. -/
theorem refreshBody_file (env : Env) (w : World) (l : List UserRecord)
    (hfile : w.file = .users l) :
    (refreshBody env w).world.file =
        (if env.writeOk then .users (l.filter (keeps env.probe)) else .users l) ∧
      (refreshBody env w).world.db = w.db ∧
      probesOf (refreshBody env w).events = l.map (fun u => u.access_token) := by
  obtain ⟨file, db⟩ := w
  simp only at hfile
  subst hfile
  obtain ⟨h1, -, -, h4⟩ := refreshLoop_spec env.probe l.length l 0
    { validUsers := [], validCount := 0, removedCount := 0,
      events := [.deferReply, .reply (.refreshStarting l.length)] }
  simp only [refreshBody, getAllUsers, writeAllUsers]
  refine ⟨?_, trivial, ?_⟩
  · rw [h1]
    cases env.writeOk <;> simp
  · rw [probesOf_append, h4]
    simp [probesOf]

/-- C2: a sweep over a stored array whose final write succeeds leaves in the user file
exactly the records whose token `checkTokenValidity` accepted, unmodified and in their
order; a record whose probe was rejected with 401 is not among them; the summary reports
the array's length, the number of records not accepted and the number of records now in
the file, and the first is the sum of the other two. -/
theorem refresh_keeps_accepted (env : Env) (w : World) (l : List UserRecord)
    (hfile : w.file = .users l) (hw : env.writeOk = true) :
    (refreshBody env w).world.file = .users (l.filter (keeps env.probe)) ∧
      (l.filter (keeps env.probe)).Sublist l ∧
      (∀ u ∈ l, env.probe u.access_token = .rejected (some 401) →
        u ∉ l.filter (keeps env.probe)) ∧
      (refreshBody env w).events.getLast? =
        some (.reply (.refreshComplete l.length
          (l.filter (fun u => !keeps env.probe u)).length
          (l.filter (keeps env.probe)).length)) ∧
      l.length =
        (l.filter (fun u => !keeps env.probe u)).length + (l.filter (keeps env.probe)).length := by
  refine ⟨?_, List.filter_sublist l, ?_, ?_, ?_⟩
  · rw [(refreshBody_file env w l hfile).1, hw]
    rfl
  · intro u _ h401 hmem
    have hk := (List.mem_filter.1 hmem).2
    simp [keeps, h401, checkTokenValidity] at hk
  · rw [refreshBody_last]
    simp [hfile, getAllUsers]
  · induction l generalizing w with
    | nil => rfl
    | cons a t ih =>
      have := ih { w with file := .users t } rfl
      by_cases ha : keeps env.probe a = true <;> simp [List.filter_cons, ha] <;> omega

/-- C2 at the spec's scenario: three users, the second answered 401; two records remain
and one is reported removed. -/
theorem refresh_keeps_accepted_witness :
    (refreshBody sampleEnv { file := .users threeUsers, db := [] }).world.file =
        .users [sampleUser "1" "t1", sampleUser "3" "t3"] ∧
      (refreshBody sampleEnv { file := .users threeUsers, db := [] }).events.getLast? =
        some (.reply (.refreshComplete 3 1 2)) := by
  have h := refresh_keeps_accepted sampleEnv { file := .users threeUsers, db := [] }
    threeUsers rfl rfl
  refine ⟨h.1.trans (by decide), h.2.2.2.1.trans (by decide)⟩

/-- C3: a record of the stored array whose probe is rejected with anything but a 401
response (another status, or no response at all) is in the user file after the sweep,
and the sweep probes every record of the array, in order. -/
theorem refresh_keeps_on_error (env : Env) (w : World) (l : List UserRecord)
    (u : UserRecord) (status : Option Nat) (hfile : w.file = .users l) (hu : u ∈ l)
    (hp : env.probe u.access_token = .rejected status) (hs : status ≠ some 401) :
    (∃ l', (refreshBody env w).world.file = .users l' ∧ u ∈ l') ∧
      probesOf (refreshBody env w).events = l.map (fun v => v.access_token) := by
  obtain ⟨hf, -, hprobes⟩ := refreshBody_file env w l hfile
  refine ⟨?_, hprobes⟩
  have hk : keeps env.probe u = true := by
    unfold keeps
    rw [hp]
    cases status with
    | none => rfl
    | some s =>
      have : s ≠ 401 := fun h => hs (by rw [h])
      simp [checkTokenValidity, this]
  rw [hf]
  cases env.writeOk with
  | true => exact ⟨_, rfl, List.mem_filter.2 ⟨hu, hk⟩⟩
  | false => exact ⟨_, rfl, hu⟩

/-- C3 at a sample sweep: the third user's probe fails without a response; the record
stays and all three tokens are probed. -/
theorem refresh_keeps_on_error_witness :
    (∃ l', (refreshBody sampleEnv { file := .users threeUsers, db := [] }).world.file =
        .users l' ∧ sampleUser "3" "t3" ∈ l') ∧
      probesOf (refreshBody sampleEnv { file := .users threeUsers, db := [] }).events =
        ["t1", "t2", "t3"] :=
  refresh_keeps_on_error sampleEnv { file := .users threeUsers, db := [] } threeUsers
    (sampleUser "3" "t3") none rfl (by decide) (by decide) (by decide)

/-- C10 fails on the code: when the final write of a sweep fails, the last message sent
is the completion summary, reporting two remaining users while the file still holds the
three it held. -/
theorem refresh_failed_write_reports_completion :
    (writeAllUsers (.users threeUsers) [sampleUser "1" "t1", sampleUser "3" "t3"]
        failingWriteEnv.writeOk).1 = false ∧
      (refreshBody failingWriteEnv { file := .users threeUsers, db := [] }).events.getLast? =
        some (.reply (.refreshComplete 3 1 2)) ∧
      (refreshBody failingWriteEnv { file := .users threeUsers, db := [] }).world.file =
        .users threeUsers := by
  decide

/-! ## The permission gate -/

/-- Line 352 as a proposition: owner, or granted in the whitelist. -/
theorem isOwnerOrWhitelisted_iff (cfg : Config) (db : Db) (authorId : String) :
    isOwnerOrWhitelisted cfg db authorId = true ↔
      authorId ∈ cfg.OWNERS ∨ isGranted db authorId = true := by
  simp [isOwnerOrWhitelisted, isGranted]

/-- The handler either refuses or runs the command's logic, by `isOwnerOrWhitelisted`. -/
theorem interactionCreate_eq (cfg : Config) (env : Env) (w : World) (authorId : String)
    (cmd : Command) :
    interactionCreate cfg env w (.command authorId cmd) =
      if isOwnerOrWhitelisted cfg w.db authorId then commandBody env w cmd
      else { world := w, events := [.reply (.permissionDenied cmd.name)] } := by
  cases cmd <;> cases h : isOwnerOrWhitelisted cfg w.db authorId <;>
    simp [interactionCreate, commandBody, h]

/-- No command's own logic sends the refusal as its only message. -/
theorem commandBody_ne_refusal (env : Env) (w : World) (cmd : Command) (name : String) :
    (commandBody env w cmd).events ≠ [.reply (.permissionDenied name)] := by
  intro h
  cases cmd with
  | refresh =>
    have := refreshBody_last env w
    simp only [commandBody] at h
    rw [h] at this
    simp at this
  | whitelist sub =>
    cases sub with
    | add user =>
      simp only [commandBody, whitelistBody] at h
      split at h <;> simp at h
    | remove user =>
      simp only [commandBody, whitelistBody] at h
      split at h <;> simp at h
    | list => simp [commandBody, whitelistBody] at h
  | mybot => simp [commandBody] at h
  | help => simp [commandBody] at h
  | joinall =>
    simp only [commandBody, joinallBody] at h
    split at h
    · simp at h
    · simp at h
    · simp at h
    · split at h
      · simp at h
      · have hl := congrArg List.getLast? h
        rw [List.getLast?_concat] at hl
        simp at hl
  | users =>
    simp only [commandBody, usersBody] at h
    split at h <;> simp at h
  | links => simp [commandBody] at h

/-- C5: for each of the seven commands, every invoker and every state, the handler runs
the command's logic exactly when the invoker is in `config.OWNERS` or in the whitelist;
when the invoker is in neither, the handler only sends the refusal: the user file and
the whitelist are unchanged, no token is probed and no join is attempted. -/
theorem permission_gate (cfg : Config) (env : Env) (w : World) (authorId : String)
    (cmd : Command) :
    (interactionCreate cfg env w (.command authorId cmd) = commandBody env w cmd ↔
        authorId ∈ cfg.OWNERS ∨ isGranted w.db authorId = true) ∧
      (¬(authorId ∈ cfg.OWNERS ∨ isGranted w.db authorId = true) →
        interactionCreate cfg env w (.command authorId cmd) =
            { world := w, events := [.reply (.permissionDenied cmd.name)] } ∧
          (interactionCreate cfg env w (.command authorId cmd)).world.file = w.file ∧
          (interactionCreate cfg env w (.command authorId cmd)).world.db = w.db ∧
          probesOf (interactionCreate cfg env w (.command authorId cmd)).events = [] ∧
          joinsOf (interactionCreate cfg env w (.command authorId cmd)).events = []) := by
  rw [interactionCreate_eq, ← isOwnerOrWhitelisted_iff]
  cases h : isOwnerOrWhitelisted cfg w.db authorId
  · refine ⟨?_, fun _ => ⟨by simp, rfl, rfl, rfl, rfl⟩⟩
    simp only [Bool.false_eq_true, if_false, iff_false]
    intro heq
    exact commandBody_ne_refusal env w cmd cmd.name (congrArg Outcome.events heq).symm
  · simp

/-- C5 at a sample input: user 7 is neither owner nor whitelisted and invokes `/refresh`;
the refusal is the only call and the file is unchanged. -/
theorem permission_gate_witness :
    interactionCreate { OWNERS := ["1"] } sampleEnv { file := .users threeUsers, db := [] }
        (.command "7" .refresh) =
      { world := { file := .users threeUsers, db := [] },
        events := [.reply (.permissionDenied "refresh")] } :=
  ((permission_gate { OWNERS := ["1"] } sampleEnv { file := .users threeUsers, db := [] }
    "7" .refresh).2 (by decide)).1

/-! ## Loading and replacing the user file -/

/-- What the sweep does on a user file that exists and cannot be read or parsed:
`getAllUsers` returns the empty array and leaves the file as it is, no token is probed,
the completion summary reports 0 initial, 0 removed and 0 remaining users, and the final
write, when it goes through, replaces the file's contents with the empty array. -/
theorem refresh_on_unloadable_file (env : Env) (w : World)
    (hfile : w.file = .unreadable ∨ w.file = .malformed) :
    getAllUsers w.file env.createOk = ([], w.file) ∧
      (refreshBody env w).events =
        [.deferReply, .reply (.refreshStarting 0), .reply (.refreshComplete 0 0 0)] ∧
      probesOf (refreshBody env w).events = [] ∧
      (refreshBody env w).world.db = w.db ∧
      (refreshBody env w).world.file = (if env.writeOk then .users [] else w.file) := by
  obtain ⟨file, db⟩ := w
  simp only at hfile
  rcases hfile with h | h <;> subst h <;>
    simp [getAllUsers, refreshBody, refreshLoop, probesOf, writeAllUsers] <;>
    cases env.writeOk <;> rfl

/-- C11 fails on the code: started on a user file whose text does not parse, the sweep
does not end with a failure; `getAllUsers` returns the empty array, the sweep sends the
completion summary with 0 removed users, and its final write replaces the contents of
the file with the empty array. -/
theorem refresh_overwrites_malformed :
    getAllUsers .malformed sampleEnv.createOk = ([], .malformed) ∧
      (refreshBody sampleEnv { file := .malformed, db := [] }).events =
        [.deferReply, .reply (.refreshStarting 0), .reply (.refreshComplete 0 0 0)] ∧
      (refreshBody sampleEnv { file := .malformed, db := [] }).world.file = .users [] ∧
      joinallBody sampleEnv { file := .unreadable, db := [] } =
        { world := { file := .unreadable, db := [] },
          events := [.deferReply, .reply .joinallReadError] } := by
  decide

/-! ## Progress messages of the sweep -/

/-- The progress messages of two stretches of calls, one after the other. -/
theorem progressOf_append (a b : List Event) :
    ∀ made, progressOf (a ++ b) made =
      progressOf a made ++ progressOf b (made + (probesOf a).length) := by
  induction a with
  | nil => intro made; simp [progressOf, probesOf]
  | cons e es ih =>
    intro made
    cases e with
    | deferReply => simp [progressOf, probesOf, ih]
    | probe t =>
      have hlen : (probesOf (Event.probe t :: es)).length = (probesOf es).length + 1 := by
        simp [probesOf]
      simp only [List.cons_append, progressOf]
      rw [hlen]
      show progressOf (es ++ b) (made + 1) = _
      rw [ih]
      congr 2
      omega
    | join u t => simp [progressOf, probesOf, ih]
    | reply r =>
      cases r <;> simp [progressOf, probesOf, ih]

/-- One turn of the loop of `/refresh`, with the two `if`s written on the fields. -/
theorem refreshLoop_cons (probe : String → ProbeOutcome) (n : Nat) (user : UserRecord)
    (rest : List UserRecord) (i : Nat) (st : SweepState) :
    refreshLoop probe n (user :: rest) i st =
      refreshLoop probe n rest (i + 1)
        { validUsers := st.validUsers ++ (if keeps probe user then [user] else [])
          validCount := st.validCount + (if keeps probe user then 1 else 0)
          removedCount := st.removedCount + (if keeps probe user then 0 else 1)
          events := st.events ++ [.probe user.access_token] ++
            (if (i + 1) % 50 == 0 || i + 1 == n then
              [.reply (.refreshProgress (i + 1) n
                (st.validCount + (if keeps probe user then 1 else 0))
                (st.removedCount + (if keeps probe user then 0 else 1)))]
            else []) } := by
  simp only [refreshLoop, keeps]
  by_cases hv : checkTokenValidity (probe user.access_token) = true <;>
    by_cases hc : ((i + 1) % 50 == 0 || i + 1 == n) = true <;>
    simp [hv, hc]

/-- The progress messages the loop of `/refresh` adds to a trace: one after the record
numbered `k` for each `k` that is a multiple of 50 or equal to `n`, showing the counts
reached at that record. -/
theorem refreshLoop_progress (probe : String → ProbeOutcome) (n : Nat)
    (users : List UserRecord) :
    ∀ (i : Nat) (st : SweepState), ∃ new,
      (refreshLoop probe n users i st).events = st.events ++ new ∧
        (probesOf new).length = users.length ∧
        ∀ made,
          (progressOf new made).map (fun e => e.processed) =
              (List.range' (i + 1) users.length).filter (fun k => k % 50 == 0 || k == n) ∧
            ∀ e ∈ progressOf new made,
              e.probesBefore + i = e.processed + made ∧ i < e.processed ∧
                e.initialCount = n ∧
                e.validCount = st.validCount +
                  ((users.take (e.processed - i)).filter (keeps probe)).length ∧
                e.validCount + e.removedCount + i =
                  e.processed + st.validCount + st.removedCount := by
  induction users with
  | nil =>
    intro i st
    exact ⟨[], by simp [refreshLoop], rfl, fun made => ⟨by simp [progressOf], by simp [progressOf]⟩⟩
  | cons user rest ih =>
    intro i st
    rw [refreshLoop_cons]
    obtain ⟨new', hev, hlen, hprog⟩ := ih (i + 1)
      { validUsers := st.validUsers ++ (if keeps probe user then [user] else [])
        validCount := st.validCount + (if keeps probe user then 1 else 0)
        removedCount := st.removedCount + (if keeps probe user then 0 else 1)
        events := st.events ++ [.probe user.access_token] ++
          (if (i + 1) % 50 == 0 || i + 1 == n then
            [.reply (.refreshProgress (i + 1) n
              (st.validCount + (if keeps probe user then 1 else 0))
              (st.removedCount + (if keeps probe user then 0 else 1)))]
          else []) }
    simp only at hev hprog
    by_cases hc : ((i + 1) % 50 == 0 || i + 1 == n) = true
    · simp only [hc, if_true] at hev hprog ⊢
      refine ⟨[.probe user.access_token,
        .reply (.refreshProgress (i + 1) n
          (st.validCount + (if keeps probe user then 1 else 0))
          (st.removedCount + (if keeps probe user then 0 else 1)))] ++ new', ?_, ?_, ?_⟩
      · rw [hev]; simp
      · rw [probesOf_append, List.length_append, hlen]
        simp [probesOf]
        omega
      · intro made
        obtain ⟨hmap, hent⟩ := hprog (made + 1)
        have hunf : progressOf ([.probe user.access_token,
            .reply (.refreshProgress (i + 1) n
              (st.validCount + (if keeps probe user then 1 else 0))
              (st.removedCount + (if keeps probe user then 0 else 1)))] ++ new') made =
            { probesBefore := made + 1, processed := i + 1, initialCount := n,
              validCount := st.validCount + (if keeps probe user then 1 else 0),
              removedCount := st.removedCount + (if keeps probe user then 0 else 1) } ::
              progressOf new' (made + 1) := by
          simp [progressOf]
        rw [hunf]
        refine ⟨?_, ?_⟩
        · rw [List.map_cons, hmap, List.length_cons, List.range'_succ, List.filter_cons]
          simp only [hc, if_true]
        · intro e he
          rcases List.mem_cons.1 he with rfl | he'
          · refine ⟨by simp; omega, by simp, rfl, ?_, ?_⟩
            · by_cases hk : keeps probe user = true <;> simp [hk]
            · by_cases hk : keeps probe user = true <;> simp [hk] <;> omega
          · obtain ⟨h1, h2, h3, h4, h5⟩ := hent e he'
            have hsub : e.processed - i = (e.processed - (i + 1)) + 1 := by omega
            refine ⟨by omega, by omega, h3, ?_, ?_⟩
            · rw [h4, hsub, List.take_succ_cons, List.filter_cons]
              by_cases hk : keeps probe user = true <;> simp [hk]
              omega
            · by_cases hk : keeps probe user = true <;> (simp [hk] at h5; omega)
    · simp only [hc, if_false, Bool.false_eq_true, List.append_nil] at hev hprog ⊢
      refine ⟨[.probe user.access_token] ++ new', ?_, ?_, ?_⟩
      · rw [hev]; simp
      · rw [probesOf_append, List.length_append, hlen]
        simp [probesOf]
        omega
      · intro made
        obtain ⟨hmap, hent⟩ := hprog (made + 1)
        have hunf : progressOf ([.probe user.access_token] ++ new') made =
            progressOf new' (made + 1) := by
          simp [progressOf]
        rw [hunf]
        refine ⟨?_, ?_⟩
        · rw [hmap, List.length_cons, List.range'_succ, List.filter_cons]
          simp only [hc, if_false, Bool.false_eq_true]
        · intro e he'
          obtain ⟨h1, h2, h3, h4, h5⟩ := hent e he'
          have hsub : e.processed - i = (e.processed - (i + 1)) + 1 := by omega
          refine ⟨by omega, by omega, h3, ?_, ?_⟩
          · rw [h4, hsub, List.take_succ_cons, List.filter_cons]
            by_cases hk : keeps probe user = true <;> simp [hk]
            omega
          · by_cases hk : keeps probe user = true <;> (simp [hk] at h5; omega)

/-- Among the numbers 1 to `m` there are `m / 50` multiples of 50. -/
theorem length_filter_multiples (m : Nat) :
    ((List.range' 1 m).filter (fun k => k % 50 == 0)).length = m / 50 := by
  induction m with
  | zero => simp
  | succ m ih =>
    have hlast : 1 + 1 * m = m + 1 := by omega
    rw [List.range'_concat, List.filter_append, List.length_append, ih, hlast]
    by_cases h : (m + 1) % 50 = 0
    · simp [List.filter_cons, h]; omega
    · simp [List.filter_cons, h]; omega

/-- The records after which the sweep reports progress are `⌈n / 50⌉` in number. -/
theorem length_progress_points (n : Nat) :
    ((List.range' 1 n).filter (fun k => k % 50 == 0 || k == n)).length = (n + 49) / 50 := by
  cases n with
  | zero => simp
  | succ m =>
    have hcongr : (List.range' 1 m).filter (fun k => k % 50 == 0 || k == m + 1) =
        (List.range' 1 m).filter (fun k => k % 50 == 0) := by
      apply List.filter_congr
      intro k hk
      have hlt := (List.mem_range'_1.1 hk).2
      have hne : (k == m + 1) = false := by
        rw [beq_eq_false_iff_ne]; omega
      simp [hne]
    have hlast : 1 + 1 * m = m + 1 := by omega
    rw [List.range'_concat, List.filter_append, List.length_append, hcongr,
      length_filter_multiples, hlast]
    simp [List.filter_cons]
    omega

/-- C13: in a sweep over `n` records the progress messages are, in order, one for each
`k` from 1 to `n` that is a multiple of 50 or equal to `n`, which makes `⌈n / 50⌉` of
them (none when `n = 0`); the one for `k` is sent when exactly `k` records have been
probed, shows `k` as the processed count and `n` as the total, shows as valid count the
number of accepted records among the first `k`, and its valid and removed counts sum to
`k`. -/
theorem refresh_progress_updates (env : Env) (w : World) :
    (progressOf (refreshBody env w).events 0).map (fun e => e.processed) =
        (List.range' 1 (sweepUsers env w).length).filter
          (fun k => k % 50 == 0 || k == (sweepUsers env w).length) ∧
      (progressOf (refreshBody env w).events 0).length =
        ((sweepUsers env w).length + 49) / 50 ∧
      ∀ e ∈ progressOf (refreshBody env w).events 0,
        e.probesBefore = e.processed ∧
          e.initialCount = (sweepUsers env w).length ∧
          e.validCount =
            (((sweepUsers env w).take e.processed).filter (keeps env.probe)).length ∧
          e.validCount + e.removedCount = e.processed := by
  unfold sweepUsers
  obtain ⟨new, hev, -, hprog⟩ := refreshLoop_progress env.probe
    (getAllUsers w.file env.createOk).1.length (getAllUsers w.file env.createOk).1 0
    { validUsers := [], validCount := 0, removedCount := 0,
      events := [.deferReply,
        .reply (.refreshStarting (getAllUsers w.file env.createOk).1.length)] }
  obtain ⟨hmap, hent⟩ := hprog 0
  have hall : progressOf (refreshBody env w).events 0 = progressOf new 0 := by
    simp only [refreshBody]
    rw [hev, progressOf_append, progressOf_append]
    simp [progressOf, probesOf]
  rw [hall]
  refine ⟨hmap, ?_, ?_⟩
  · rw [← length_progress_points, ← hmap, List.length_map]
  · intro e he
    obtain ⟨h1, -, h3, h4, h5⟩ := hent e he
    simp only [Nat.add_zero, Nat.zero_add, Nat.sub_zero] at h1 h4 h5
    exact ⟨h1, h3, h4, h5⟩

/-- C13 evaluated on the sample sweep of three records: one progress message, after the
third probe, showing 3 processed, 2 valid and 1 removed. -/
theorem refresh_progress_sample :
    progressOf (refreshBody sampleEnv { file := .users threeUsers, db := [] }).events 0 =
      [{ probesBefore := 3, processed := 3, initialCount := 3, validCount := 2,
         removedCount := 1 }] := by
  decide

set_option maxRecDepth 100000 in
/-- C13 evaluated on a sweep of 120 records: progress after the 50th, the 100th and the
120th record. -/
theorem refresh_progress_sample_120 :
    (progressOf (refreshBody sampleEnv
        { file := .users (List.replicate 120 (sampleUser "1" "t1")), db := [] }).events 0).map
        (fun e => (e.probesBefore, e.processed, e.validCount, e.removedCount)) =
      [(50, 50, 50, 0), (100, 100, 100, 0), (120, 120, 120, 0)] := by
  decide

/-! ## Two requests at once -/

/-- The callback is its read step followed by its write step. -/
theorem readFileCallback_eq_steps (file : StoreFile) (ip : String) (userData : Profile)
    (name ac_token : String) (rf_token : Option String) (writeOk : Bool) :
    readFileCallback file ip userData name ac_token rf_token writeOk =
      (writeStep file (readStep file ip userData name ac_token rf_token).1 writeOk,
        (readStep file ip userData name ac_token rf_token).2) := by
  cases file with
  | users l =>
    simp only [readFileCallback, readStep]
    split <;> simp [writeStep]
  | missing => simp [readFileCallback, readStep, writeStep]
  | unreadable => simp [readFileCallback, readStep, writeStep]
  | malformed => simp [readFileCallback, readStep, writeStep]

/-- The file a request leaves is its store write applied to its store read. -/
theorem intake_file_eq_steps (file : StoreFile) (r : IntakeRequest) :
    (intake file r).file = writeStep file (intakeRead file r) r.writeOk := by
  rcases r with ⟨code, xff, ra, _ | ⟨_ | ac, rf, tt⟩, _ | _ | _ | ⟨id, _ | name, dc, av, em⟩, wo⟩ <;>
    simp [intake, intakeRead, writeStep, readFileCallback_eq_steps]
  all_goals
    by_cases h1 : ac = "" <;> simp [h1, writeStep]
  by_cases h2 : name = "" <;> simp [h2, writeStep]

/-- The six interleavings, written out. -/
theorem interleavings_eq :
    interleavings =
      [[.read .first, .write .first, .read .second, .write .second],
       [.read .first, .read .second, .write .first, .write .second],
       [.read .first, .read .second, .write .second, .write .first],
       [.read .second, .read .first, .write .first, .write .second],
       [.read .second, .read .first, .write .second, .write .first],
       [.read .second, .write .second, .read .first, .write .first]] := by
  simp [interleavings, merges]

/-- What a request's store read yields on a file holding an array: nothing, or the array
followed by one record whose userID is new and is the id of the profile the request
resolves to. -/
theorem intakeRead_users (l : List UserRecord) (r : IntakeRequest) :
    intakeRead (.users l) r = none ∨
      ∃ rec, (∃ p, resolvedProfile r = some p ∧ p.id = rec.userID) ∧
        (∀ u ∈ l, u.userID ≠ rec.userID) ∧ intakeRead (.users l) r = some (l ++ [rec]) := by
  rcases r with ⟨code, xff, ra, _ | ⟨_ | ac, rf, tt⟩, _ | _ | _ | ⟨id, _ | name, dc, av, em⟩, wo⟩ <;>
    simp [intakeRead]
  by_cases h1 : ac = ""
  · simp [h1]
  by_cases h2 : name = ""
  · simp [h1, h2]
  by_cases hany : l.any (fun ususu => ususu.userID == id) = true
  · left
    simp [h1, h2, readStep, hany]
  · right
    refine ⟨papapa (sourceIp ⟨code, xff, ra, .answered ⟨some ac, rf, tt⟩,
      .body ⟨id, some name, dc, av, em⟩, wo⟩) ⟨id, some name, dc, av, em⟩ name ac rf, ?_, ?_, ?_⟩
    · exact ⟨⟨id, some name, dc, av, em⟩, by simp [resolvedProfile, truthy, h1, h2], rfl⟩
    · intro u hu he
      apply hany
      exact List.any_eq_true.2 ⟨u, hu, by simpa [papapa] using he⟩
    · simp [h1, h2, readStep, hany]

/-- Appending one record with a new userID keeps the userIDs distinct, keeps what was
there, and adds only that userID. -/
theorem ext_good (l l' : List UserRecord) (P : String → Prop)
    (hnd : (l.map (fun u => u.userID)).Nodup)
    (hext : l' = l ∨ ∃ rec, P rec.userID ∧ (∀ u ∈ l, u.userID ≠ rec.userID) ∧ l' = l ++ [rec]) :
    (l'.map (fun u => u.userID)).Nodup ∧ l <+: l' ∧
      ∀ id ∈ l'.map (fun u => u.userID), id ∈ l.map (fun u => u.userID) ∨ P id := by
  rcases hext with rfl | ⟨rec, hP, hnew, rfl⟩
  · exact ⟨hnd, List.prefix_refl _, fun id h => Or.inl h⟩
  · refine ⟨?_, List.prefix_append _ _, ?_⟩
    · rw [List.map_append, List.nodup_append]
      refine ⟨hnd, by simp, ?_⟩
      intro a ha hb
      simp only [List.map_cons, List.map_nil, List.mem_singleton] at hb
      subst hb
      obtain ⟨u, hu, hid⟩ := List.mem_map.1 ha
      exact hnew u hu hid
    · intro id hid
      rw [List.map_append, List.mem_append] at hid
      rcases hid with h | h
      · exact Or.inl h
      · simp only [List.map_cons, List.map_nil, List.mem_singleton] at h
        subst h
        exact Or.inr hP

/-- The file one request leaves on an array, its write completing: the array, or the
array followed by one record with a new userID, that of the resolved profile. -/
theorem intake_users_ext (l : List UserRecord) (r : IntakeRequest) (hw : r.writeOk = true) :
    ∃ l', (intake (.users l) r).file = .users l' ∧
      (l' = l ∨ ∃ rec, (∃ p, resolvedProfile r = some p ∧ p.id = rec.userID) ∧
        (∀ u ∈ l, u.userID ≠ rec.userID) ∧ l' = l ++ [rec]) := by
  rw [intake_file_eq_steps, hw]
  rcases intakeRead_users l r with h | ⟨rec, hp, hnew, h⟩
  · exact ⟨l, by simp [h, writeStep], Or.inl rfl⟩
  · exact ⟨l ++ [rec], by simp [h, writeStep], Or.inr ⟨rec, hp, hnew, rfl⟩⟩

/-- When both reads come before both writes, the file is the array that was read, or
that array followed by the record of one of the two requests. -/
theorem racy_final (l : List UserRecord) (ra rb : IntakeRequest) :
    ∃ l', writeStep (writeStep (.users l) (intakeRead (.users l) ra) true)
        (intakeRead (.users l) rb) true = .users l' ∧
      (l' = l ∨ ∃ rec, ((∃ p, resolvedProfile ra = some p ∧ p.id = rec.userID) ∨
          (∃ p, resolvedProfile rb = some p ∧ p.id = rec.userID)) ∧
        (∀ u ∈ l, u.userID ≠ rec.userID) ∧ l' = l ++ [rec]) := by
  rcases intakeRead_users l ra with ha | ⟨reca, hpa, hnewa, ha⟩ <;>
    rcases intakeRead_users l rb with hb | ⟨recb, hpb, hnewb, hb⟩
  · exact ⟨l, by simp [ha, hb, writeStep], Or.inl rfl⟩
  · exact ⟨l ++ [recb], by simp [ha, hb, writeStep], Or.inr ⟨recb, Or.inr hpb, hnewb, rfl⟩⟩
  · exact ⟨l ++ [reca], by simp [ha, hb, writeStep], Or.inr ⟨reca, Or.inl hpa, hnewa, rfl⟩⟩
  · exact ⟨l ++ [recb], by simp [ha, hb, writeStep], Or.inr ⟨recb, Or.inr hpb, hnewb, rfl⟩⟩

/-- A request whose resolved id is stored leaves the file as it is. -/
theorem intake_of_stored (l : List UserRecord) (r : IntakeRequest) (p : Profile)
    (hres : resolvedProfile r = some p) (hin : p.id ∈ l.map (fun u => u.userID)) :
    (intake (.users l) r).file = .users l := by
  rw [intake_file_eq_steps]
  rcases intakeRead_users l r with h | ⟨rec, ⟨q, hq, hid⟩, hnew, -⟩
  · simp [h, writeStep]
  · exfalso
    rw [hres] at hq
    simp only [Option.some.injEq] at hq
    subst hq
    obtain ⟨u, hu, hu'⟩ := List.mem_map.1 hin
    exact hnew u hu (hu'.trans hid)

/-- Two requests served one after the other on an array with distinct userIDs, their
writes completing: the file keeps what it held, its userIDs stay distinct, and they are
those it held and those of the resolved profiles. -/
theorem intake_two_good (l : List UserRecord) (r1 r2 : IntakeRequest)
    (hnd : (l.map (fun u => u.userID)).Nodup) (hw1 : r1.writeOk = true)
    (hw2 : r2.writeOk = true) :
    ∃ l', intakeAll (.users l) [r1, r2] = .users l' ∧
      (l'.map (fun u => u.userID)).Nodup ∧ l <+: l' ∧
      ∀ id, id ∈ l'.map (fun u => u.userID) ↔
        id ∈ l.map (fun u => u.userID) ∨ (∃ p, resolvedProfile r1 = some p ∧ p.id = id) ∨
          ∃ p, resolvedProfile r2 = some p ∧ p.id = id := by
  obtain ⟨l1, hf1, hnd1, hids1⟩ := intake_step_ids l r1 hw1 hnd
  obtain ⟨l2, hf2, hnd2, hids2⟩ := intake_step_ids l1 r2 hw2 hnd1
  obtain ⟨m1, hm1, hext1⟩ := intake_users_ext l r1 hw1
  obtain ⟨m2, hm2, hext2⟩ := intake_users_ext l1 r2 hw2
  have e1 : m1 = l1 := StoreFile.users.inj (hm1.symm.trans hf1)
  have e2 : m2 = l2 := StoreFile.users.inj (hm2.symm.trans hf2)
  subst e1 e2
  refine ⟨m2, ?_, hnd2, ?_, ?_⟩
  · simp only [intakeAll, hf1, hf2]
  · exact List.IsPrefix.trans
      (ext_good l m1 (fun id => ∃ p, resolvedProfile r1 = some p ∧ p.id = id) hnd hext1).2.1
      (ext_good m1 m2 (fun id => ∃ p, resolvedProfile r2 = some p ∧ p.id = id) hnd1 hext2).2.1
  · intro id
    rw [hids2, hids1, or_assoc]

/-- C14, as stated, fails when both reads come before both writes: of two new
identities only the record of the later write is in the file, and of two authorisations
of the same new identity the record kept is the one of the later write. -/
theorem race_loses_record :
    [Step.read .first, .read .second, .write .first, .write .second] ∈ interleavings ∧
      race aliceRequest bobRequest (.users [])
          [.read .first, .read .second, .write .first, .write .second] =
        .users [papapa "10.0.0.8" bob "bob" "at-2" none] ∧
      race aliceRequest aliceAgainRequest (.users [])
          [.read .first, .read .second, .write .first, .write .second] =
        .users [papapa "10.0.0.7" alice "alice" "at-9" (some "rt-9")] :=
  ⟨by simp [interleavings_eq], by decide, by decide⟩

/-- C14, amended: on a file holding records with distinct userIDs, for every
interleaving of the read and write steps of two requests whose writes complete, the file
afterwards holds records with distinct userIDs, begins with the records it held, and
every userID in it was held before or is the id of one of the two resolved profiles.
When the steps of one request do not fall between the read and the write of the other,
the file is the one that serving the two requests one after the other leaves: its
userIDs are exactly those it held and those of the two resolved profiles, and when both
resolve to the same id the second request changes nothing, so the record of the first
writer is the one kept. -/
theorem race_outcome (l : List UserRecord) (r1 r2 : IntakeRequest)
    (hnd : (l.map (fun u => u.userID)).Nodup) (hw1 : r1.writeOk = true)
    (hw2 : r2.writeOk = true) :
    (∀ s ∈ interleavings, ∃ l', race r1 r2 (.users l) s = .users l' ∧
        (l'.map (fun u => u.userID)).Nodup ∧ l <+: l' ∧
        ∀ id ∈ l'.map (fun u => u.userID),
          id ∈ l.map (fun u => u.userID) ∨ (∃ p, resolvedProfile r1 = some p ∧ p.id = id) ∨
            ∃ p, resolvedProfile r2 = some p ∧ p.id = id) ∧
      race r1 r2 (.users l) [.read .first, .write .first, .read .second, .write .second] =
        intakeAll (.users l) [r1, r2] ∧
      race r1 r2 (.users l) [.read .second, .write .second, .read .first, .write .first] =
        intakeAll (.users l) [r2, r1] ∧
      (∃ l', intakeAll (.users l) [r1, r2] = .users l' ∧
        (l'.map (fun u => u.userID)).Nodup ∧
        ∀ id, id ∈ l'.map (fun u => u.userID) ↔
          id ∈ l.map (fun u => u.userID) ∨ (∃ p, resolvedProfile r1 = some p ∧ p.id = id) ∨
            ∃ p, resolvedProfile r2 = some p ∧ p.id = id) ∧
      (∃ l', intakeAll (.users l) [r2, r1] = .users l' ∧
        (l'.map (fun u => u.userID)).Nodup ∧
        ∀ id, id ∈ l'.map (fun u => u.userID) ↔
          id ∈ l.map (fun u => u.userID) ∨ (∃ p, resolvedProfile r1 = some p ∧ p.id = id) ∨
            ∃ p, resolvedProfile r2 = some p ∧ p.id = id) ∧
      ∀ p1 p2, resolvedProfile r1 = some p1 → resolvedProfile r2 = some p2 → p1.id = p2.id →
        intakeAll (.users l) [r1, r2] = (intake (.users l) r1).file ∧
          intakeAll (.users l) [r2, r1] = (intake (.users l) r2).file := by
  have hser12 : race r1 r2 (.users l)
      [.read .first, .write .first, .read .second, .write .second] =
      intakeAll (.users l) [r1, r2] := by
    simp [race, raceStep, intakeAll, intake_file_eq_steps]
  have hser21 : race r1 r2 (.users l)
      [.read .second, .write .second, .read .first, .write .first] =
      intakeAll (.users l) [r2, r1] := by
    simp [race, raceStep, intakeAll, intake_file_eq_steps]
  obtain ⟨a, ha, hnda, hprea, hidsa⟩ := intake_two_good l r1 r2 hnd hw1 hw2
  obtain ⟨b, hb, hndb, hpreb, hidsb⟩ := intake_two_good l r2 r1 hnd hw2 hw1
  have hidsb' : ∀ id, id ∈ b.map (fun u => u.userID) ↔
      id ∈ l.map (fun u => u.userID) ∨ (∃ p, resolvedProfile r1 = some p ∧ p.id = id) ∨
        ∃ p, resolvedProfile r2 = some p ∧ p.id = id := by
    intro id
    rw [hidsb id]
    constructor
    · rintro (h | h | h)
      · exact Or.inl h
      · exact Or.inr (Or.inr h)
      · exact Or.inr (Or.inl h)
    · rintro (h | h | h)
      · exact Or.inl h
      · exact Or.inr (Or.inr h)
      · exact Or.inr (Or.inl h)
  refine ⟨?_, hser12, hser21, ⟨a, ha, hnda, hidsa⟩, ⟨b, hb, hndb, hidsb'⟩, ?_⟩
  · intro s hs
    rw [interleavings_eq] at hs
    simp only [List.mem_cons, List.mem_singleton, List.not_mem_nil, or_false] at hs
    rcases hs with rfl | rfl | rfl | rfl | rfl | rfl
    · exact ⟨a, hser12.trans ha, hnda, hprea, fun id h => (hidsa id).1 h⟩
    · obtain ⟨l', hl', hext⟩ := racy_final l r1 r2
      refine ⟨l', ?_, ext_good l l'
        (fun id => (∃ p, resolvedProfile r1 = some p ∧ p.id = id) ∨
        ∃ p, resolvedProfile r2 = some p ∧ p.id = id) hnd hext⟩
      simpa [race, raceStep, hw1, hw2] using hl'
    · obtain ⟨l', hl', hext⟩ := racy_final l r2 r1
      have hext' : l' = l ∨ ∃ rec, ((∃ p, resolvedProfile r1 = some p ∧ p.id = rec.userID) ∨
          (∃ p, resolvedProfile r2 = some p ∧ p.id = rec.userID)) ∧
          (∀ u ∈ l, u.userID ≠ rec.userID) ∧ l' = l ++ [rec] := by
        rcases hext with h | ⟨rec, hp, hnew, h⟩
        · exact Or.inl h
        · exact Or.inr ⟨rec, hp.symm, hnew, h⟩
      refine ⟨l', ?_, ext_good l l'
        (fun id => (∃ p, resolvedProfile r1 = some p ∧ p.id = id) ∨
        ∃ p, resolvedProfile r2 = some p ∧ p.id = id) hnd hext'⟩
      simpa [race, raceStep, hw1, hw2] using hl'
    · obtain ⟨l', hl', hext⟩ := racy_final l r1 r2
      refine ⟨l', ?_, ext_good l l'
        (fun id => (∃ p, resolvedProfile r1 = some p ∧ p.id = id) ∨
        ∃ p, resolvedProfile r2 = some p ∧ p.id = id) hnd hext⟩
      simpa [race, raceStep, hw1, hw2] using hl'
    · obtain ⟨l', hl', hext⟩ := racy_final l r2 r1
      have hext' : l' = l ∨ ∃ rec, ((∃ p, resolvedProfile r1 = some p ∧ p.id = rec.userID) ∨
          (∃ p, resolvedProfile r2 = some p ∧ p.id = rec.userID)) ∧
          (∀ u ∈ l, u.userID ≠ rec.userID) ∧ l' = l ++ [rec] := by
        rcases hext with h | ⟨rec, hp, hnew, h⟩
        · exact Or.inl h
        · exact Or.inr ⟨rec, hp.symm, hnew, h⟩
      refine ⟨l', ?_, ext_good l l'
        (fun id => (∃ p, resolvedProfile r1 = some p ∧ p.id = id) ∨
        ∃ p, resolvedProfile r2 = some p ∧ p.id = id) hnd hext'⟩
      simpa [race, raceStep, hw1, hw2] using hl'
    · exact ⟨b, hser21.trans hb, hndb, hpreb, fun id h => (hidsb' id).1 h⟩
  · intro p1 p2 h1 h2 hid
    obtain ⟨l1, hf1, -, hids1⟩ := intake_step_ids l r1 hw1 hnd
    obtain ⟨l2, hf2, -, hids2⟩ := intake_step_ids l r2 hw2 hnd
    constructor
    · simp only [intakeAll, hf1]
      exact intake_of_stored l1 r2 p2 h2 ((hids1 p2.id).2 (Or.inr ⟨p1, h1, hid⟩))
    · simp only [intakeAll, hf2]
      exact intake_of_stored l2 r1 p1 h1 ((hids2 p1.id).2 (Or.inr ⟨p2, h2, hid.symm⟩))

/-- C14 at a sample input: `alice` and `bob` authorise at once on an empty array; when
the steps of the first request come first the file is the one the two requests leave
when served in turn, and it holds both records. -/
theorem race_outcome_witness :
    (([] : List UserRecord).map (fun u => u.userID)).Nodup ∧
      aliceRequest.writeOk = true ∧ bobRequest.writeOk = true ∧
      race aliceRequest bobRequest (.users [])
          [.read .first, .write .first, .read .second, .write .second] =
        intakeAll (.users []) [aliceRequest, bobRequest] ∧
      intakeAll (.users []) [aliceRequest, bobRequest] =
        .users [papapa "10.0.0.7" alice "alice" "at-1" (some "rt-1"),
                papapa "10.0.0.8" bob "bob" "at-2" none] :=
  ⟨List.nodup_nil, rfl, rfl,
    (race_outcome [] aliceRequest bobRequest List.nodup_nil rfl rfl).2.1, by decide⟩

/-! ## The text of the user file -/

/-- A hexadecimal digit written is read back as its value. -/
theorem hexValue_hexDigit : ∀ n, n < 16 → hexValue (hexDigit n) = some n := by
  decide

/-- An escaped character is read back as the character. -/
theorem parseChar_escapeChar (c : Char) (k : List Char) :
    parseChar (escapeChar c ++ k) = some (c, k) ∧
      ∃ d ds, escapeChar c ++ k = d :: ds ∧ d ≠ '\x22' := by
  unfold escapeChar
  split_ifs with h1 h2 h3 h4 h5 h6 h7 h8
  · subst h1; exact ⟨by simp [parseChar, unescape], _, _, rfl, by decide⟩
  · subst h2; exact ⟨by simp [parseChar, unescape], _, _, rfl, by decide⟩
  · subst h3; exact ⟨by simp [parseChar, unescape], _, _, rfl, by decide⟩
  · subst h4; exact ⟨by simp [parseChar, unescape], _, _, rfl, by decide⟩
  · subst h5; exact ⟨by simp [parseChar, unescape], _, _, rfl, by decide⟩
  · subst h6; exact ⟨by simp [parseChar, unescape], _, _, rfl, by decide⟩
  · subst h7; exact ⟨by simp [parseChar, unescape], _, _, rfl, by decide⟩
  · have ha : hexValue (hexDigit (c.toNat / 16)) = some (c.toNat / 16) :=
      hexValue_hexDigit _ (by omega)
    have hb : hexValue (hexDigit (c.toNat % 16)) = some (c.toNat % 16) :=
      hexValue_hexDigit _ (by omega)
    have h0 : hexValue '0' = some 0 := by decide
    have hn : c.toNat / 16 * 16 + c.toNat % 16 = c.toNat := by omega
    refine ⟨?_, _, _, rfl, by decide⟩
    simp [parseChar, hexCode, ha, hb, h0, hn]
    omega
  · exact ⟨by simp [parseChar, h2, h8], _, _, rfl, h1⟩

/-- The characters of a string written by `escape`, followed by the closing quote, are
read back as the string. -/
theorem parseCharsFuel_escape (s : List Char) :
    ∀ (k : List Char) (fuel : Nat), s.length < fuel →
      parseCharsFuel fuel (escape s ++ '\x22' :: k) = some (s, k) := by
  induction s with
  | nil =>
    intro k fuel hf
    obtain ⟨f, rfl⟩ : ∃ f, fuel = f + 1 := ⟨fuel - 1, by omega⟩
    simp [escape, parseCharsFuel]
  | cons c cs ih =>
    intro k fuel hf
    obtain ⟨f, rfl⟩ : ∃ f, fuel = f + 1 := ⟨fuel - 1, by omega⟩
    obtain ⟨hp, d, ds, hd, hq⟩ := parseChar_escapeChar c (escape cs ++ '\x22' :: k)
    simp only [escape, List.append_assoc]
    rw [hd, parseCharsFuel]
    simp only [hq, if_false]
    rw [← hd, hp]
    simp only [List.length_cons] at hf
    simp only [ih k f (by omega)]

/-- Every character is written as at least one. -/
theorem length_le_escape (s : List Char) : s.length ≤ (escape s).length := by
  induction s with
  | nil => simp [escape]
  | cons c cs ih =>
    have : 1 ≤ (escapeChar c).length := by
      unfold escapeChar; split_ifs <;> simp
    simp [escape]; omega

/-- With fuel for the whole text, the same. -/
theorem parseChars_escape (s k : List Char) :
    parseChars (escape s ++ '\x22' :: k) = some (s, k) := by
  unfold parseChars
  apply parseCharsFuel_escape
  have := length_le_escape s
  simp; omega

/-- A blank is skipped. -/
theorem skipWs_space (k : List Char) : skipWs (' ' :: k) = skipWs k := by
  simp [skipWs]

/-- A line break is skipped. -/
theorem skipWs_newline (k : List Char) : skipWs ('\x0a' :: k) = skipWs k := by
  simp [skipWs]

/-- A quote is not white space. -/
theorem skipWs_quote (k : List Char) : skipWs ('\x22' :: k) = '\x22' :: k := by
  simp [skipWs]

/-- A colon is not white space. -/
theorem skipWs_colon (k : List Char) : skipWs (':' :: k) = ':' :: k := by
  simp [skipWs]

/-- A comma is not white space. -/
theorem skipWs_comma (k : List Char) : skipWs (',' :: k) = ',' :: k := by
  simp [skipWs]

/-- An opening brace is not white space. -/
theorem skipWs_openBrace (k : List Char) : skipWs ('\x7b' :: k) = '\x7b' :: k := by
  simp [skipWs]

/-- A closing brace is not white space. -/
theorem skipWs_closeBrace (k : List Char) : skipWs ('\x7d' :: k) = '\x7d' :: k := by
  simp [skipWs]

/-- A closing bracket is not white space. -/
theorem skipWs_closeBracket (k : List Char) : skipWs (']' :: k) = ']' :: k := by
  simp [skipWs]

/-- A written value does not start with white space. -/
theorem skipWs_printValue (v : Option (List Char)) (k : List Char) :
    skipWs (printValue v k) = printValue v k := by
  cases v <;> simp [skipWs, printValue, printString]

/-- A written value is read back. -/
theorem parseValue_printValue (v : Option (List Char)) (k : List Char) :
    parseValue (printValue v k) = some (v, k) := by
  cases v with
  | none => simp [printValue, parseValue]
  | some s => simp [printValue, printString, parseValue, parseChars_escape]

/-- A written property is read back. -/
theorem parseMember_printMember (m : Member) (k : List Char) :
    parseMember (skipWs (printMember m k)) = some (m, k) := by
  obtain ⟨key, v⟩ := m
  simp only [printMember, printString, skipWs_space, skipWs_quote, parseMember, if_true,
    parseChars_escape, skipWs_colon, skipWs_printValue, parseValue_printValue]

/-- The written properties after the first, and the closing brace, are read back. -/
theorem parseMoreMembers_print (ms : List Member) :
    ∀ (k : List Char) (fuel : Nat), ms.length < fuel →
      parseMoreMembers fuel (printMoreMembers ms ('\x0a' :: ' ' :: ' ' :: '\x7d' :: k)) =
        some (ms, k) := by
  induction ms with
  | nil =>
    intro k fuel hf
    obtain ⟨f, rfl⟩ : ∃ f, fuel = f + 1 := ⟨fuel - 1, by omega⟩
    simp only [printMoreMembers, parseMoreMembers, skipWs_newline, skipWs_space,
      skipWs_closeBrace, if_true]
  | cons m ms ih =>
    intro k fuel hf
    obtain ⟨f, rfl⟩ : ∃ f, fuel = f + 1 := ⟨fuel - 1, by omega⟩
    simp only [List.length_cons] at hf
    have hne : ¬ (',' = '\x7d') := by decide
    simp only [printMoreMembers, parseMoreMembers, skipWs_comma, hne, if_false, if_true,
      skipWs_newline, parseMember_printMember, ih k f (by omega)]

/-- A written property does not shorten the text. -/
theorem length_printMember (m : Member) (k : List Char) :
    k.length ≤ (printMember m k).length := by
  obtain ⟨key, v⟩ := m
  cases v <;> simp [printMember, printString, printValue] <;> omega

/-- Every written property takes at least one character. -/
theorem length_printMoreMembers (ms : List Member) :
    ∀ k : List Char, ms.length + k.length ≤ (printMoreMembers ms k).length := by
  induction ms with
  | nil => intro k; simp [printMoreMembers]
  | cons m ms ih =>
    intro k
    have h1 := ih k
    have h2 := length_printMember m (printMoreMembers ms k)
    simp only [printMoreMembers, List.length_cons]
    omega

/-- A written object is read back. -/
theorem parseObject_printObject (o : List Member) (k : List Char) :
    parseObject (printObject o k) = some (o, k) := by
  cases o with
  | nil => simp only [printObject, parseObject, if_true, skipWs_closeBrace]
  | cons m ms =>
    have hskip : skipWs ('\x0a' :: printMember m
        (printMoreMembers ms ('\x0a' :: ' ' :: ' ' :: '\x7d' :: k))) =
        '\x22' :: (escape m.1 ++ '\x22' :: ':' :: ' ' :: printValue m.2
          (printMoreMembers ms ('\x0a' :: ' ' :: ' ' :: '\x7d' :: k))) := by
      simp only [skipWs_newline, printMember, printString, skipWs_space, skipWs_quote]
    have hmem := parseMember_printMember m
      (printMoreMembers ms ('\x0a' :: ' ' :: ' ' :: '\x7d' :: k))
    simp only [printMember, printString, skipWs_space, skipWs_quote] at hmem
    have hne : ¬ ('\x22' = '\x7d') := by decide
    have hlen := length_printMoreMembers ms ('\x0a' :: ' ' :: ' ' :: '\x7d' :: k)
    simp only [printObject, parseObject, if_true, hskip, hne, if_false, hmem]
    rw [parseMoreMembers_print ms k _ (by omega)]

/-- A written object does not shorten the text. -/
theorem length_printObject (o : List Member) (k : List Char) :
    k.length ≤ (printObject o k).length := by
  cases o with
  | nil => simp only [printObject, List.length_cons]; omega
  | cons m ms =>
    have h1 := length_printMoreMembers ms ('\x0a' :: ' ' :: ' ' :: '\x7d' :: k)
    have h2 := length_printMember m (printMoreMembers ms ('\x0a' :: ' ' :: ' ' :: '\x7d' :: k))
    simp only [printObject, List.length_cons] at *
    omega

/-- Every written element takes at least one character. -/
theorem length_printMoreElements (os : List (List Member)) :
    ∀ k : List Char, os.length + k.length ≤ (printMoreElements os k).length := by
  induction os with
  | nil => intro k; simp [printMoreElements]
  | cons o os ih =>
    intro k
    have h1 := ih k
    have h2 := length_printObject o (printMoreElements os k)
    simp only [printMoreElements, List.length_cons]
    omega

/-- A written object does not start with white space. -/
theorem skipWs_printObject (o : List Member) (k : List Char) :
    skipWs (printObject o k) = printObject o k := by
  cases o <;> simp only [printObject, skipWs_openBrace]

/-- The written elements after the first, and the closing bracket, are read back. -/
theorem parseMoreElements_print (os : List (List Member)) :
    ∀ (fuel : Nat), os.length < fuel →
      parseMoreElements fuel (printMoreElements os ['\x0a', ']']) = some (os, []) := by
  induction os with
  | nil =>
    intro fuel hf
    obtain ⟨f, rfl⟩ : ∃ f, fuel = f + 1 := ⟨fuel - 1, by omega⟩
    simp only [printMoreElements, parseMoreElements, skipWs_newline, skipWs_closeBracket,
      if_true]
  | cons o os ih =>
    intro fuel hf
    obtain ⟨f, rfl⟩ : ∃ f, fuel = f + 1 := ⟨fuel - 1, by omega⟩
    simp only [List.length_cons] at hf
    have hne : ¬ (',' = ']') := by decide
    simp only [printMoreElements, parseMoreElements, skipWs_comma, hne, if_false, if_true,
      skipWs_newline, skipWs_space, skipWs_printObject, parseObject_printObject,
      ih f (by omega)]

/-- A written array of objects is read back. -/
theorem parseText_printArray (os : List (List Member)) :
    parseText (printArray os) = some os := by
  cases os with
  | nil => simp [printArray, parseText, skipWs]
  | cons o os =>
    have hsk : skipWs ('[' :: '\x0a' :: ' ' :: ' ' :: printObject o
        (printMoreElements os ['\x0a', ']'])) =
        '[' :: '\x0a' :: ' ' :: ' ' :: printObject o (printMoreElements os ['\x0a', ']']) := by
      simp [skipWs]
    have hobj : ∃ cs, printObject o (printMoreElements os ['\x0a', ']']) = '\x7b' :: cs := by
      cases o <;> exact ⟨_, rfl⟩
    obtain ⟨cs, hcs⟩ := hobj
    have hpo := parseObject_printObject o (printMoreElements os ['\x0a', ']'])
    have hlen := length_printMoreElements os ['\x0a', ']']
    have hne : ¬ ('\x7b' = ']') := by decide
    simp only [printArray, parseText, hsk, if_true, skipWs_newline, skipWs_space,
      skipWs_printObject]
    rw [hcs] at hpo ⊢
    simp only [hne, if_false, hpo]
    rw [parseMoreElements_print os _ (by omega)]
    simp [skipWs]

/-- The properties written for a record are read back as the record. -/
theorem recordOf_membersOf (dropNone : Bool) (u : UserRecord) :
    recordOf (membersOf dropNone u) = some u := by
  obtain ⟨userID, userIP, avatarURL, username, email, access_token, refresh_token⟩ := u
  cases dropNone <;> cases email <;> cases refresh_token <;>
    simp [recordOf, membersOf, optionalMember, readString, readOptional, lookupMember,
      keyUserID, keyUserIP, keyAvatarURL, keyUsername, keyEmail, keyAccessToken,
      keyRefreshToken]

/-- The same for an array of records. -/
theorem recordsOf_membersOf (dropNone : Bool) (users : List UserRecord) :
    recordsOf (users.map (membersOf dropNone)) = some users := by
  induction users with
  | nil => rfl
  | cons u us ih => simp [recordsOf, recordOf_membersOf, ih]

/-- `JSON.parse` of what `JSON.stringify` wrote for an array of records is the array. -/
theorem jsonParse_jsonStringify (dropNone : Bool) (users : List UserRecord) :
    jsonParse (jsonStringify dropNone users) = some users := by
  simp [jsonParse, jsonStringify, parseText_printArray, recordsOf_membersOf]

/-- Any array of objects that stand for the records `X`, whatever their extra
properties, their order of keys and their way of writing a field without a string, is
read back from its text as `X`. -/
theorem jsonParse_printArray (os : List (List Member)) (X : List UserRecord)
    (h : recordsOf os = some X) : jsonParse (String.mk (printArray os)) = some X := by
  simp [jsonParse, parseText_printArray, h]

/-- The text model of `getAllUsers` and the one on `StoreFile` agree. -/
theorem getAllUsersText_refines (disk : Disk) (createOk : Bool) :
    ((getAllUsersText disk createOk).1, (getAllUsersText disk createOk).2.toStoreFile) =
      getAllUsers disk.toStoreFile createOk := by
  have hempty : jsonParse "[]" = some [] := by decide
  cases disk with
  | absent => cases createOk <;> simp [getAllUsersText, getAllUsers, Disk.toStoreFile, hempty]
  | locked => simp [getAllUsersText, getAllUsers, Disk.toStoreFile]
  | text t =>
    cases h : jsonParse t <;> simp [getAllUsersText, getAllUsers, Disk.toStoreFile, h]

/-- The text model of `writeAllUsers` and the one on `StoreFile` agree. -/
theorem writeAllUsersText_refines (disk : Disk) (users : List UserRecord)
    (dropNone writeOk : Bool) :
    ((writeAllUsersText disk users dropNone writeOk).1,
        (writeAllUsersText disk users dropNone writeOk).2.toStoreFile) =
      writeAllUsers disk.toStoreFile users writeOk := by
  cases writeOk <;>
    simp [writeAllUsersText, writeAllUsers, Disk.toStoreFile, jsonParse_jsonStringify]

/-- C12: for every array `X` of records, `writeAllUsers` reports the outcome of the file
write (serialising `X` never fails), and when the write goes through, whatever the file
held before, the file holds the text `JSON.stringify(X, null, 2)`, `JSON.parse` reads
that text back as `X`, and a `getAllUsers` after it returns exactly `X`, same records
and fields in the same order, leaving the file as it is. -/
theorem write_then_load (disk : Disk) (X : List UserRecord)
    (dropNone createOk writeOk : Bool) :
    (writeAllUsersText disk X dropNone writeOk).1 = writeOk ∧
      (writeOk = true →
        (writeAllUsersText disk X dropNone writeOk).2 = .text (jsonStringify dropNone X) ∧
          jsonParse (jsonStringify dropNone X) = some X ∧
          getAllUsersText (writeAllUsersText disk X dropNone writeOk).2 createOk =
            (X, .text (jsonStringify dropNone X))) := by
  cases writeOk
  · simp [writeAllUsersText]
  · simp [writeAllUsersText, getAllUsersText, jsonParse_jsonStringify]

/-- C12 at a sample input: three users written over a file holding other text. -/
theorem write_then_load_witness :
    (writeAllUsersText (.text "not json") threeUsers false true).2 =
        .text (jsonStringify false threeUsers) ∧
      jsonParse (jsonStringify false threeUsers) = some threeUsers ∧
      getAllUsersText (writeAllUsersText (.text "not json") threeUsers false true).2 false =
        (threeUsers, .text (jsonStringify false threeUsers)) :=
  (write_then_load (.text "not json") threeUsers false false true).2 rfl

set_option maxRecDepth 100000 in
/-- The text written for one record, character by character, with a quote inside a
string escaped. -/
theorem jsonStringify_sample :
    jsonStringify false [sampleUser "1" "t\x22x"] =
      "[\n  \x7b\n    \x22userID\x22: \x221\x22,\n    \x22userIP\x22: \x2210.0.0.7\x22,\n    \x22avatarURL\x22: \x22\x22,\n    \x22username\x22: \x22user#0\x22,\n    \x22email\x22: null,\n    \x22access_token\x22: \x22t\\\x22x\x22,\n    \x22refresh_token\x22: null\n  \x7d\n]" := by
  decide

set_option maxRecDepth 100000 in
/-- A text not written by the program is read too: other white space, another order of
the keys, an escape, fields left out. -/
theorem jsonParse_sample :
    jsonParse "[\x7b \x22userID\x22:\x221\x22, \x22access_token\x22 : \x22t\x22, \x22userIP\x22:\x22a\x22,\x22avatarURL\x22:\x22\\u0041\x22,\x22username\x22:\x22n\x22\x7d]" =
      some [{ userID := "1", userIP := "a", avatarURL := "A", username := "n",
              email := none, access_token := "t", refresh_token := none }] := by
  decide

set_option maxRecDepth 100000 in
/-- The text written for one record whose fields without a string are `undefined`: the
two properties are left out. -/
theorem jsonStringify_sample_undefined :
    jsonStringify true [sampleUser "1" "t"] =
      "[\n  \x7b\n    \x22userID\x22: \x221\x22,\n    \x22userIP\x22: \x2210.0.0.7\x22,\n    \x22avatarURL\x22: \x22\x22,\n    \x22username\x22: \x22user#0\x22,\n    \x22access_token\x22: \x22t\x22\n  \x7d\n]" ∧
      jsonStringify true [] = "[]" := by
  decide

/-- A cut-off text and an empty one do not parse; the text `[]` is the empty array. -/
theorem jsonParse_rejects :
    jsonParse "[\x7b \x22userID\x22:\x221\x22" = none ∧ jsonParse "" = none ∧
      jsonParse "not json" = none ∧ jsonParse "[]" = some [] := by
  decide

end AuthBot
